import Mathlib

/-
  Verification development for the SimInf stochastic solver core
  (src/core/siminf_run.c: SimInf_solver_ssa and SimInf_run_solver_ssa).

  The C code is shallowly embedded: IEEE doubles are modelled by rationals,
  with a `finite` flag on values returned by propensity callbacks so that the
  solver's finiteness checks can be expressed; `malloc`ed per-thread arrays
  become per-worker Lean structures; the per-worker GSL RNG becomes a stream
  of rationals indexed by a cursor; libm's log and the GSL generators, which
  are external libraries, are abstract parameters; the scheduled-event
  processors (SimInf_process_E1_events / SimInf_process_E2_events), whose
  source is outside this repository, are abstract parameters acting on the
  exact set of fields the spec allows them to mutate.
-/

set_option maxHeartbeats 1000000
set_option maxRecDepth 10000

namespace SimInf

/-- Error code for a failed memory allocation (SimInf.h, outside src; only
the distinctness and nonzeroness of the codes is relied upon). -/
def SIMINF_ERR_ALLOC_MEMORY_BUFFER : Int := -1

/-- Error code set when a compartment count would become negative. -/
def SIMINF_ERR_NEGATIVE_STATE : Int := -2

/-- Error code set when a propensity returns a non-finite or negative value. -/
def SIMINF_ERR_INVALID_RATE : Int := -3

/-- Model of a C double as returned by a propensity callback: a rational
value together with a flag recording whether the double is finite, so that
the solver's `isfinite` check can be expressed. -/
structure CDouble where
  finite : Bool
  val : ℚ
deriving DecidableEq, Repr

/-- The check `!isfinite(rate) || rate < 0.0` from the solver. -/
def invalidRate (r : CDouble) : Bool :=
  !r.finite || decide (r.val < 0)

/-- Compressed-sparse-column integer matrix (ir, jc, pr triples), used for
the state-change matrix `S` of the solver. -/
structure CSCi where
  ir : List ℕ
  jc : List ℕ
  pr : List ℤ
deriving DecidableEq, Repr

/-- Compressed-sparse-column pattern matrix (ir, jc only), used for the
dependency graph `G` of the solver. -/
structure CSCp where
  ir : List ℕ
  jc : List ℕ
deriving DecidableEq, Repr

/-- Index range of column `tr` in a CSC matrix: `j` runs over
`[jc[tr], jc[tr+1])`. -/
def colIdx (jc : List ℕ) (tr : ℕ) : List ℕ :=
  List.range' (jc.getD tr 0) (jc.getD (tr + 1) 0 - jc.getD tr 0)

/-- Row indices listed in column `tr` of the dependency graph. -/
def colRows (G : CSCp) (tr : ℕ) : List ℕ :=
  (colIdx G.jc tr).map (fun j => G.ir.getD j 0)

/-- Slice of length `len` starting at offset `off`, the embedding of a C
pointer `&a[off]` read for `len` elements. -/
def lslice {α : Type} (l : List α) (off len : ℕ) : List α :=
  (l.drop off).take len

/-- Static solver inputs, mirroring SimInf_solver_args. -/
structure SolverArgs where
  Nn : ℕ
  Nc : ℕ
  Nt : ℕ
  Nd : ℕ
  Nld : ℕ
  G : CSCp
  S : CSCi
  tspan : List ℚ
  tlen : ℕ
  u0 : List ℤ
  v0 : List ℚ
  ldata : List ℚ
  gdata : List ℚ
  Nthread : ℕ
  seed : ℕ

/-- The model callbacks delivered through the args: the propensity functions
`tr_fun[j](u, v, ldata, gdata, t)` and the post-timestep function
`pts_fun(v_new, u, v, ldata, gdata, node, t)`, which returns the updated
`v_new` buffer together with its integer return code. -/
structure Callbacks where
  tr_fun : ℕ → List ℤ → List ℚ → List ℚ → List ℚ → ℚ → CDouble
  pts_fun : List ℚ → List ℤ → List ℚ → List ℚ → List ℚ → ℕ → ℚ → List ℚ × ℤ

/-- Mutable per-node state owned by a worker: the C arrays `u`, `v`, `v_new`,
`t_rate`, `sum_t_rate`, `t_time` and `update_node` restricted to one node. -/
structure NodeW where
  u : List ℤ
  v : List ℚ
  v_new : List ℚ
  t_rate : List ℚ
  sum_t_rate : ℚ
  t_time : ℚ
  update_node : ℤ
deriving DecidableEq, Repr, Inhabited

/-- Per-worker state, mirroring one SimInf_thread_args entry. Output writes
of the worker to the dense matrices U and V are kept as per-worker write
logs (`Ufrag`, `Vfrag`, most recent first); the regions written by distinct
workers in one column are disjoint, so this is observably the memcpy into
the shared column. `stuck` is a modelling artifact flagging that the
bounded unrolling of the inner SSA loop ran out of fuel; a run in which any
worker is stuck returns no result. -/
structure Worker where
  Ni : ℕ
  nodes : List NodeW
  errcode : ℤ
  tt : ℚ
  next_day : ℚ
  U_it : ℕ
  V_it : ℕ
  rngCur : ℕ
  seed : ℕ
  Ufrag : List (ℕ × List ℤ)
  Vfrag : List (ℕ × List ℚ)
  stuck : Bool
deriving DecidableEq, Repr, Inhabited

/-- The fields of a worker that the scheduled-event processors may mutate:
compartment counts and update flags of its nodes, its error code and its
RNG cursor. -/
structure EvView where
  uvec : List (List ℤ)
  upd : List ℤ
  errcode : ℤ
  rngCur : ℕ

/-- External collaborators of the core: libm's negated logarithm, the GSL
master and per-worker generators, and the event processors (whose source is
outside src/). `ustream s k` is the `k`-th draw of `gsl_rng_uniform_pos`
from a generator seeded with `s`; `mtDraw s i` is the `i`-th
`gsl_rng_uniform_int` draw of the master generator seeded with `s`. -/
structure Ext where
  neglog : ℚ → ℚ
  ustream : ℕ → ℕ → ℚ
  mtDraw : ℕ → ℕ → ℕ
  e1 : ℕ → EvView → EvView
  e2 : List EvView → List EvView

/-- State threaded through one node's inner SSA loop: the node's compartment
counts, cached rates and local time together with the worker's error code
and RNG cursor. -/
structure StepState where
  u : List ℤ
  t_rate : List ℚ
  sum_t_rate : ℚ
  t_time : ℚ
  errcode : ℤ
  rngCur : ℕ
deriving DecidableEq, Repr

/-- Read-only context of one node's inner SSA loop. -/
structure NodeCtx where
  Nt : ℕ
  S : CSCi
  G : CSCp
  v : List ℚ
  ldata : List ℚ
  gdata : List ℚ
  next_day : ℚ
  urand : ℕ → ℚ
  neglog : ℚ → ℚ
  cb : Callbacks

/-- The cumulative-rate scan
`for (tr = 0, cum = t_rate[0]; tr < Nt && rand > cum; tr++, cum += t_rate[tr]);`
unrolled on the remaining iteration count `Nt - tr`. -/
def ssaScanAux (rates : List ℚ) (rand : ℚ) : ℕ → ℕ → ℚ → ℕ
  | 0, tr, _ => tr
  | rem + 1, tr, cum =>
    if cum < rand then ssaScanAux rates rand rem (tr + 1) (cum + rates.getD (tr + 1) 0)
    else tr

/-- Result of the cumulative-rate scan starting at `tr = 0`,
`cum = t_rate[0]`. -/
def ssaScan (Nt : ℕ) (rates : List ℚ) (rand : ℚ) : ℕ :=
  ssaScanAux rates rand Nt 0 (rates.getD 0 0)

/-- The backward walk `for ( ; tr > 0 && t_rate[tr] == 0.0; tr--);`. -/
def ssaWalkBack (rates : List ℚ) : ℕ → ℕ
  | 0 => 0
  | tr + 1 => if rates.getD (tr + 1) 0 = 0 then ssaWalkBack rates tr else tr + 1

/-- The clamp `if (tr >= Nt) tr = Nt - 1;` after the scan. -/
def ssaClamp (Nt tr0 : ℕ) : ℕ :=
  if Nt ≤ tr0 then Nt - 1 else tr0

/-- Transition selection of the direct SSA step: scan, clamp to `Nt - 1` on
overshoot, walk backwards from a zero rate; `none` is the nil event (no
nonzero rate found at or below the sampled index). -/
def ssaSelect (Nt : ℕ) (rates : List ℚ) (rand : ℚ) : Option ℕ :=
  let tr1 := ssaClamp Nt (ssaScan Nt rates rand)
  if rates.getD tr1 0 = 0 then
    let tr2 := ssaWalkBack rates tr1
    if rates.getD tr2 0 = 0 then none else some tr2
  else some tr1

/-- One iteration of step 1c of the solver: add one entry of a state-change
column to the node's compartment counts, setting SIMINF_ERR_NEGATIVE_STATE
when the updated count is negative. -/
def scStep (S : CSCi) (p : List ℤ × ℤ) (j : ℕ) : List ℤ × ℤ :=
  let r := S.ir.getD j 0
  let newv := p.1.getD r 0 + S.pr.getD j 0
  (p.1.set r newv, if newv < 0 then SIMINF_ERR_NEGATIVE_STATE else p.2)

/-- Fold of `scStep` over column `tr`, step 1c of the solver. -/
def SimInf_state_change (S : CSCi) (tr : ℕ) (u : List ℤ) (err : ℤ) :
    List ℤ × ℤ :=
  (colIdx S.jc tr).foldl (scStep S) (u, err)

/-- One iteration of the solver's rate-refresh loops: recompute the rate at
one listed row index, replacing the cached value, accumulating the
difference `new - old` into the delta, and setting
SIMINF_ERR_INVALID_RATE on a non-finite or negative value. -/
def refreshStep (f : ℕ → CDouble) (acc : List ℚ × ℚ × ℤ) (i : ℕ) :
    List ℚ × ℚ × ℤ :=
  let old := acc.1.getD i 0
  let rate := f i
  (acc.1.set i rate.val, acc.2.1 + (rate.val - old),
   if invalidRate rate then SIMINF_ERR_INVALID_RATE else acc.2.2)

/-- Fold of `refreshStep` over the listed row indices, with the delta
accumulator starting at zero as `delta = 0.0` does in the C loops. -/
def refreshFold (f : ℕ → CDouble) (is : List ℕ) (t_rate : List ℚ) (err : ℤ) :
    List ℚ × ℚ × ℤ :=
  is.foldl (refreshStep f) (t_rate, 0, err)

/-- Step 1d of the solver: refresh, at the node's current time, exactly the
rates whose row indices appear in column `tr` of the dependency graph. -/
def SimInf_dep_refresh (G : CSCp) (cb : Callbacks) (u : List ℤ)
    (v ld gd : List ℚ) (t : ℚ) (tr : ℕ) (t_rate : List ℚ) (err : ℤ) :
    List ℚ × ℚ × ℤ :=
  refreshFold (fun i => cb.tr_fun i u v ld gd t) (colRows G tr) t_rate err

/-- One iteration of the inner `for (;;)` loop of step (1) of the solver,
for a single node. The second component is `true` exactly when the C code
executes `break`. -/
def ssaStep (ctx : NodeCtx) (s : StepState) : StepState × Bool :=
  if s.sum_t_rate ≤ 0 then ({ s with t_time := ctx.next_day }, true)
  else
    let tau := ctx.neglog (ctx.urand s.rngCur) / s.sum_t_rate
    let s1 : StepState := { s with rngCur := s.rngCur + 1 }
    if ctx.next_day ≤ tau + s1.t_time then
      ({ s1 with t_time := ctx.next_day }, true)
    else
      let s2 : StepState := { s1 with t_time := s1.t_time + tau }
      let rand := ctx.urand s2.rngCur * s2.sum_t_rate
      let s3 : StepState := { s2 with rngCur := s2.rngCur + 1 }
      match ssaSelect ctx.Nt s3.t_rate rand with
      | none => ({ s3 with sum_t_rate := 0 }, true)
      | some tr =>
        let uc := SimInf_state_change ctx.S tr s3.u s3.errcode
        let rf := SimInf_dep_refresh ctx.G ctx.cb uc.1 ctx.v ctx.ldata
          ctx.gdata s3.t_time tr s3.t_rate uc.2
        ({ s3 with
            u := uc.1, t_rate := rf.1,
            sum_t_rate := s3.sum_t_rate + rf.2.1, errcode := rf.2.2 }, false)

/-- The inner SSA loop of one node, bounded by `fuel` iterations; `none`
means the bound was exhausted before the loop broke. -/
def ssaNode (ctx : NodeCtx) : ℕ → StepState → Option StepState
  | 0, _ => none
  | fuel + 1, s =>
    match ssaStep ctx s with
    | (s', true) => some s'
    | (s', false) => ssaNode ctx fuel s'

/-- Local-data slice of global node `g`: `&ldata[g * Nld]`. -/
def ldOf (A : SolverArgs) (g : ℕ) : List ℚ :=
  lslice A.ldata (g * A.Nld) A.Nld

/-- One iteration of the rate-initialization loop in the first parallel
block of SimInf_solver_ssa: compute a propensity, store it, add it to the
rate sum, and validate it. -/
def initStep (g : ℕ → CDouble) (acc : List ℚ × ℚ × ℤ) (j : ℕ) :
    List ℚ × ℚ × ℤ :=
  let rate := g j
  (acc.1.set j rate.val, acc.2.1 + rate.val,
   if invalidRate rate then SIMINF_ERR_INVALID_RATE else acc.2.2)

/-- Fold of `initStep` over all transitions of one node, followed by
setting the node's local time to `tt`. -/
def SimInf_init_node (Nt : ℕ) (cb : Callbacks) (tt : ℚ) (ld gd : List ℚ)
    (nd : NodeW) (err : ℤ) : NodeW × ℤ :=
  let res := (List.range Nt).foldl
    (initStep (fun j => cb.tr_fun j nd.u nd.v ld gd tt))
    (nd.t_rate, 0, err)
  ({ nd with t_rate := res.1, sum_t_rate := res.2.1, t_time := tt }, res.2.2)

/-- Rate initialization over a worker's nodes, threading the error code;
`n` is the node's offset inside the worker's partition. -/
def initNodesGo (A : SolverArgs) (cb : Callbacks) (tt : ℚ) (Ni : ℕ) :
    ℕ → List NodeW → ℤ → List NodeW × ℤ
  | _, [], err => ([], err)
  | n, nd :: rest, err =>
    let r := SimInf_init_node A.Nt cb tt (ldOf A (Ni + n)) A.gdata nd err
    let rr := initNodesGo A cb tt Ni (n + 1) rest r.2
    (r.1 :: rr.1, rr.2)

/-- The first parallel block of SimInf_solver_ssa for one worker. -/
def workerInit (A : SolverArgs) (cb : Callbacks) (w : Worker) : Worker :=
  let r := initNodesGo A cb w.tt w.Ni 0 w.nodes w.errcode
  { w with nodes := r.1, errcode := r.2 }

/-- Read-only context of the inner SSA loop for global node `g` of a worker
whose child seed is `seed`. -/
def mkCtx (A : SolverArgs) (cb : Callbacks) (ext : Ext) (seed : ℕ)
    (next_day : ℚ) (g : ℕ) (nd : NodeW) : NodeCtx :=
  { Nt := A.Nt, S := A.S, G := A.G, v := nd.v, ldata := ldOf A g,
    gdata := A.gdata, next_day := next_day, urand := ext.ustream seed,
    neglog := ext.neglog, cb := cb }

/-- Step (1) of the solver's main loop over a worker's nodes: the loop
`for (node = 0; node < sa.Nn && !sa.errcode; node++)` running each node's
inner SSA loop. Returns updated nodes, error code, RNG cursor and the
fuel-exhaustion flag. -/
def ssaNodesGo (A : SolverArgs) (cb : Callbacks) (ext : Ext) (fuel : ℕ)
    (seed : ℕ) (next_day : ℚ) (Ni : ℕ) :
    ℕ → List NodeW → ℤ → ℕ → Bool → List NodeW × ℤ × ℕ × Bool
  | _, [], err, cur, stuck => ([], err, cur, stuck)
  | n, nd :: rest, err, cur, stuck =>
    if stuck ∨ err ≠ 0 then (nd :: rest, err, cur, stuck)
    else
      let ctx := mkCtx A cb ext seed next_day (Ni + n) nd
      match ssaNode ctx fuel ⟨nd.u, nd.t_rate, nd.sum_t_rate, nd.t_time, err, cur⟩ with
      | none => (nd :: rest, err, cur, true)
      | some s =>
        let nd' : NodeW := { nd with
          u := s.u, t_rate := s.t_rate, sum_t_rate := s.sum_t_rate,
          t_time := s.t_time }
        let rr := ssaNodesGo A cb ext fuel seed next_day Ni (n + 1) rest
          s.errcode s.rngCur stuck
        (nd' :: rr.1, rr.2)

/-- The event-processor view of a worker's mutable footprint. -/
def evView (w : Worker) : EvView :=
  { uvec := w.nodes.map (fun nd => nd.u),
    upd := w.nodes.map (fun nd => nd.update_node),
    errcode := w.errcode, rngCur := w.rngCur }

/-- Write an event-processor view back into the worker. -/
def applyEvView (w : Worker) (v : EvView) : Worker :=
  { w with
    nodes := List.zipWith (fun nd p => { nd with u := p.1, update_node := p.2 })
      w.nodes (v.uvec.zip v.upd),
    errcode := v.errcode, rngCur := v.rngCur }

/-- Steps (1) and (2) of the solver's main loop for worker `i`: the SSA
kernel over its nodes followed by its intra-node (E1) events. -/
def workerPhaseA (A : SolverArgs) (cb : Callbacks) (ext : Ext) (fuel : ℕ)
    (i : ℕ) (w : Worker) : Worker :=
  let r := ssaNodesGo A cb ext fuel w.seed w.next_day w.Ni 0 w.nodes
    w.errcode w.rngCur w.stuck
  let w1 : Worker := { w with
    nodes := r.1, errcode := r.2.1, rngCur := r.2.2.1, stuck := r.2.2.2 }
  applyEvView w1 (ext.e1 i (evView w1))

/-- Step (4) of the solver for one node: the post-timestep callback writes
`v_new` and returns `rc`; `rc < 0` latches `rc` as the error code and breaks
the node loop (third component `true`); `rc > 0` or a set update flag
triggers a full rate refresh that reads `v_new` at time `tt`, after which
the flag is cleared. -/
def SimInf_post_node (A : SolverArgs) (cb : Callbacks) (tt : ℚ) (g : ℕ)
    (nd : NodeW) (err : ℤ) : NodeW × ℤ × Bool :=
  let p := cb.pts_fun nd.v_new nd.u nd.v (ldOf A g) A.gdata g tt
  if p.2 < 0 then ({ nd with v_new := p.1 }, p.2, true)
  else if 0 < p.2 ∨ nd.update_node ≠ 0 then
    let r := refreshFold (fun j => cb.tr_fun j nd.u p.1 (ldOf A g) A.gdata tt)
      (List.range A.Nt) nd.t_rate err
    ({ nd with
        v_new := p.1, t_rate := r.1,
        sum_t_rate := nd.sum_t_rate + r.2.1, update_node := 0 }, r.2.2, false)
  else ({ nd with v_new := p.1 }, err, false)

/-- Step (4) of the solver over a worker's nodes, with the `break` on a
negative callback return code leaving the remaining nodes untouched. -/
def postNodesGo (A : SolverArgs) (cb : Callbacks) (tt : ℚ) (Ni : ℕ) :
    ℕ → List NodeW → ℤ → List NodeW × ℤ
  | _, [], err => ([], err)
  | n, nd :: rest, err =>
    let r := SimInf_post_node A cb tt (Ni + n) nd err
    if r.2.2 then (r.1 :: rest, r.2.1)
    else
      let rr := postNodesGo A cb tt Ni (n + 1) rest r.2.1
      (r.1 :: rr.1, rr.2)

/-- Step (6a) of the solver: the loop
`while (it < tlen && tt > tspan[it])` copying the worker's state slice into
dense output column `it` (recorded in a per-worker write log, most recent
first) and advancing the cursor. -/
def sampleGo {α : Type} (tspan : List ℚ) (tlen : ℕ) (tt : ℚ) (data : α) :
    ℕ → ℕ → List (ℕ × α) → ℕ × List (ℕ × α)
  | 0, it, frag => (it, frag)
  | fuel + 1, it, frag =>
    if it < tlen ∧ tspan.getD it 0 < tt then
      sampleGo tspan tlen tt data fuel (it + 1) ((it, data) :: frag)
    else (it, frag)

/-- The loop above started with the exact iteration bound `tlen - it`: when
the bound reaches zero the cursor has reached `tlen` and the C loop
condition is false as well, so the unrolling is exact. -/
def sampleLoop {α : Type} (tspan : List ℚ) (tlen : ℕ) (tt : ℚ) (data : α)
    (it : ℕ) (frag : List (ℕ × α)) : ℕ × List (ℕ × α) :=
  sampleGo tspan tlen tt data (tlen - it) it frag

/-- Steps (4), (5) and (6a) of the solver's main loop for one worker: the
post-timestep phase, the advance of `tt` and `next_day`, and the sampling of
dense output columns. -/
def workerPhaseC (A : SolverArgs) (cb : Callbacks) (w : Worker) : Worker :=
  let r := postNodesGo A cb w.tt w.Ni 0 w.nodes w.errcode
  let tt' := w.next_day
  let uflat := (r.1.map (fun nd => nd.u)).flatten
  let vflat := (r.1.map (fun nd => nd.v_new)).flatten
  let su := sampleLoop A.tspan A.tlen tt' uflat w.U_it w.Ufrag
  let sv := sampleLoop A.tspan A.tlen tt' vflat w.V_it w.Vfrag
  { w with
    nodes := r.1, errcode := r.2, tt := tt', next_day := w.next_day + 1,
    U_it := su.1, Ufrag := su.2, V_it := sv.1, Vfrag := sv.2 }

/-- The swap of the `v` and `v_new` pointers at the end of a day. -/
def workerSwap (w : Worker) : Worker :=
  { w with nodes := w.nodes.map (fun nd => { nd with v := nd.v_new, v_new := nd.v }) }

/-- Global solver state: the worker array together with column 0 of the
dense outputs, which SimInf_run_solver_ssa copies from `u0` and `v0` before
the solver loop starts. -/
structure SolverState where
  workers : List Worker
  Ucol0 : List ℤ
  Vcol0 : List ℚ
deriving Repr, DecidableEq, Inhabited

/-- One step of an `omp for` region under an explicit schedule: run worker
`i`'s body. Each body touches only its own entry of the worker array. -/
def stepAt (f : ℕ → Worker → Worker) (ws : List Worker) (i : ℕ) : List Worker :=
  ws.set i (f i (ws.getD i default))

/-- An `omp for` region executed in the order given by the schedule `ord`. -/
def parFor (f : ℕ → Worker → Worker) (ord : List ℕ) (ws : List Worker) :
    List Worker :=
  ord.foldl (stepAt f) ws

/-- The error check `for (k = 0; ...) if (sim_args[k].errcode) return ...`:
the first nonzero error code in worker order. -/
def firstErrcode : List Worker → Option ℤ
  | [] => none
  | w :: rest => if w.errcode ≠ 0 then some w.errcode else firstErrcode rest

/-- Result of one iteration of the solver's main day loop: halt with a
return code, or continue with the next state. -/
inductive DayRes where
  | halt (code : ℤ) (st : SolverState)
  | cont (st : SolverState)

/-- One iteration of the main `for (;;)` loop of SimInf_solver_ssa: phase A
(SSA and E1, parallel), E2 by the master worker under barriers, phase C
(post-timestep and sampling, parallel), the v/v_new swap with the error
check in worker order, and the termination test on worker 0's cursor.
`none` reports fuel exhaustion in some inner SSA loop. -/
def runDay (A : SolverArgs) (cb : Callbacks) (ext : Ext) (fuel : ℕ)
    (ordA ordC : List ℕ) (st : SolverState) : Option DayRes :=
  let ws1 := parFor (workerPhaseA A cb ext fuel) ordA st.workers
  let ws2 := List.zipWith applyEvView ws1 (ext.e2 (ws1.map evView))
  let ws3 := parFor (fun _ w => workerPhaseC A cb w) ordC ws2
  let ws4 := ws3.map workerSwap
  let st' : SolverState := { st with workers := ws4 }
  if ws4.any (fun w => w.stuck) then none
  else
    match firstErrcode ws4 with
    | some e => some (.halt e st')
    | none =>
      if A.tlen ≤ (ws4.getD 0 default).U_it then some (.halt 0 st')
      else some (.cont st')

/-- The main day loop, bounded by `days` iterations; `d` counts the days for
schedule lookup. -/
def runLoop (A : SolverArgs) (cb : Callbacks) (ext : Ext) (fuel : ℕ)
    (schedA schedC : ℕ → List ℕ) : ℕ → ℕ → SolverState → Option (ℤ × SolverState)
  | 0, _, _ => none
  | days + 1, d, st =>
    match runDay A cb ext fuel (schedA d) (schedC d) st with
    | none => none
    | some (.halt c st') => some (c, st')
    | some (.cont st') => runLoop A cb ext fuel schedA schedC days (d + 1) st'

/-- First node owned by worker `i`: `Ni = i * (Nn / Nthread)`. -/
def partNi (Nn Nthread i : ℕ) : ℕ := i * (Nn / Nthread)

/-- Number of nodes owned by worker `i`: `Nn / Nthread`, plus the remainder
`Nn % Nthread` for the last worker. -/
def partCnt (Nn Nthread i : ℕ) : ℕ :=
  Nn / Nthread + if i = Nthread - 1 then Nn % Nthread else 0

/-- Initial state of global node `g` from `u0` and `v0`; `v_new`, `t_rate`
and the rate sums are unset until the first parallel block (the C buffers
are uninitialized there; zeros stand in for the garbage). -/
def mkNode (A : SolverArgs) (g : ℕ) : NodeW :=
  { u := lslice A.u0 (g * A.Nc) A.Nc,
    v := lslice A.v0 (g * A.Nd) A.Nd,
    v_new := List.replicate A.Nd 0,
    t_rate := List.replicate A.Nt 0,
    sum_t_rate := 0, t_time := 0, update_node := 0 }

/-- Per-worker setup of SimInf_run_solver_ssa: the contiguous node
partition, the child seed drawn from the master generator (one
`gsl_rng_uniform_int` draw per worker), the clocks
`tt = tspan[0]`, `next_day = floor(tt) + 1`, and both sample cursors
starting at 1. -/
def mkWorker (A : SolverArgs) (ext : Ext) (i : ℕ) : Worker :=
  let Ni := partNi A.Nn A.Nthread i
  { Ni := Ni,
    nodes := (List.range (partCnt A.Nn A.Nthread i)).map (fun n => mkNode A (Ni + n)),
    errcode := 0,
    tt := A.tspan.getD 0 0,
    next_day := (⌊A.tspan.getD 0 0⌋ : ℚ) + 1,
    U_it := 1, V_it := 1,
    rngCur := 0,
    seed := ext.mtDraw A.seed i,
    Ufrag := [], Vfrag := [], stuck := false }

/-- State after the setup in SimInf_run_solver_ssa: workers configured and
column 0 of the dense outputs copied from `u0` and `v0`. -/
def setupState (A : SolverArgs) (ext : Ext) : SolverState :=
  { workers := (List.range A.Nthread).map (mkWorker A ext),
    Ucol0 := A.u0.take (A.Nn * A.Nc),
    Vcol0 := A.v0.take (A.Nn * A.Nd) }

/-- The full solver under explicit schedules for every parallel region:
setup, the rate-initialization block, its error check, then the main day
loop. -/
def runSolverSched (A : SolverArgs) (cb : Callbacks) (ext : Ext)
    (fuel days : ℕ) (ordInit : List ℕ) (schedA schedC : ℕ → List ℕ) :
    Option (ℤ × SolverState) :=
  let st0 := setupState A ext
  let ws1 := parFor (fun _ w => workerInit A cb w) ordInit st0.workers
  let st1 : SolverState := { st0 with workers := ws1 }
  match firstErrcode ws1 with
  | some e => some (e, st1)
  | none => runLoop A cb ext fuel schedA schedC days 0 st1

/-- The solver under the canonical in-order schedule. -/
def runSolver (A : SolverArgs) (cb : Callbacks) (ext : Ext)
    (fuel days : ℕ) : Option (ℤ × SolverState) :=
  runSolverSched A cb ext fuel days (List.range A.Nthread)
    (fun _ => List.range A.Nthread) (fun _ => List.range A.Nthread)

/-- Cumulative rate sum `cum` after the scan has passed index `k`:
`t_rate[0] + ... + t_rate[k]`. -/
def cumSum (rates : List ℚ) (k : ℕ) : ℚ :=
  (rates.take (k + 1)).sum

/-- Value of column `tr` of the state-change matrix at row `c` (rows may in
principle repeat in a CSC column; the entries are summed). -/
def colValS (S : CSCi) (tr c : ℕ) : ℤ :=
  (((colIdx S.jc tr).filter (fun j => S.ir.getD j 0 = c)).map
    (fun j => S.pr.getD j 0)).sum

lemma getD_set_self {α : Type} (l : List α) (i : ℕ) (h : i < l.length)
    (v d : α) : (l.set i v).getD i d = v := by
  simp [List.getD_eq_getElem?_getD, List.getElem?_set_self, h]

lemma getD_set_ne {α : Type} (l : List α) {i j : ℕ} (h : i ≠ j)
    (v d : α) : (l.set i v).getD j d = l.getD j d := by
  simp [List.getD_eq_getElem?_getD, List.getElem?_set_ne h]

lemma cumSum_zero (rates : List ℚ) : cumSum rates 0 = rates.getD 0 0 := by
  cases rates <;> simp [cumSum, List.getD]

lemma cumSum_succ (rates : List ℚ) (k : ℕ) :
    cumSum rates (k + 1) = cumSum rates k + rates.getD (k + 1) 0 := by
  unfold cumSum
  rw [show k + 1 + 1 = (k + 1) + 1 from rfl, List.take_succ]
  simp [List.getD_eq_getElem?_getD]
  cases h : rates[k+1]? <;> simp [Option.getD]

lemma cumSum_of_length (rates : List ℚ) {Nt : ℕ} (h : rates.length = Nt)
    (hNt : 0 < Nt) : cumSum rates (Nt - 1) = rates.sum := by
  unfold cumSum
  rw [show Nt - 1 + 1 = Nt by omega, List.take_of_length_le (by omega)]

lemma ssaScanAux_spec (rates : List ℚ) (rand : ℚ) :
    ∀ (rem tr : ℕ),
      tr ≤ ssaScanAux rates rand rem tr (cumSum rates tr) ∧
      ssaScanAux rates rand rem tr (cumSum rates tr) ≤ tr + rem ∧
      (∀ m, tr ≤ m → m < ssaScanAux rates rand rem tr (cumSum rates tr) →
        cumSum rates m < rand) ∧
      (ssaScanAux rates rand rem tr (cumSum rates tr) < tr + rem →
        rand ≤ cumSum rates (ssaScanAux rates rand rem tr (cumSum rates tr))) := by
  intro rem
  induction rem with
  | zero =>
    intro tr
    simp [ssaScanAux]
    omega
  | succ rem ih =>
    intro tr
    by_cases h : cumSum rates tr < rand
    · have hstep : ssaScanAux rates rand (rem + 1) tr (cumSum rates tr) =
          ssaScanAux rates rand rem (tr + 1) (cumSum rates (tr + 1)) := by
        rw [ssaScanAux, if_pos h, cumSum_succ]
      obtain ⟨ih1, ih2, ih3, ih4⟩ := ih (tr + 1)
      rw [hstep]
      refine ⟨by omega, by omega, ?_, ?_⟩
      · intro m hm1 hm2
        rcases Nat.eq_or_lt_of_le hm1 with rfl | hm1'
        · exact h
        · exact ih3 m hm1' hm2
      · intro hlt
        exact ih4 (by omega)
    · have hstep : ssaScanAux rates rand (rem + 1) tr (cumSum rates tr) = tr := by
        rw [ssaScanAux, if_neg h]
      rw [hstep]
      refine ⟨le_refl _, by omega, ?_, fun _ => le_of_not_lt h⟩
      intro m hm1 hm2
      omega

/-- Characterization of the cumulative-rate scan: it returns the first
index whose cumulative sum reaches or exceeds `rand`, or `Nt` when no
cumulative sum does. -/
lemma ssaScan_spec (Nt : ℕ) (rates : List ℚ) (rand : ℚ) :
    ssaScan Nt rates rand ≤ Nt ∧
    (∀ m, m < ssaScan Nt rates rand → cumSum rates m < rand) ∧
    (ssaScan Nt rates rand < Nt → rand ≤ cumSum rates (ssaScan Nt rates rand)) := by
  have heq : ssaScan Nt rates rand = ssaScanAux rates rand Nt 0 (cumSum rates 0) := by
    rw [ssaScan, cumSum_zero]
  rw [heq]
  obtain ⟨h1, h2, h3, h4⟩ := ssaScanAux_spec rates rand Nt 0
  exact ⟨by omega, fun m hm => h3 m (Nat.zero_le m) hm, fun h => h4 (by omega)⟩

/-- Characterization of the backward walk from a zero rate: it never moves
up, every index strictly between its result and its start holds a zero
rate, and it stops only at a nonzero rate or at index 0. -/
lemma ssaWalkBack_spec (rates : List ℚ) (tr : ℕ) :
    ssaWalkBack rates tr ≤ tr ∧
    (∀ m, ssaWalkBack rates tr < m → m ≤ tr → rates.getD m 0 = 0) ∧
    (rates.getD (ssaWalkBack rates tr) 0 ≠ 0 ∨ ssaWalkBack rates tr = 0) := by
  induction tr with
  | zero => exact ⟨le_refl _, fun m h1 h2 => absurd (lt_of_lt_of_le h1 h2) (lt_irrefl _), Or.inr rfl⟩
  | succ tr ih =>
    by_cases h : rates.getD (tr + 1) 0 = 0
    · have hstep : ssaWalkBack rates (tr + 1) = ssaWalkBack rates tr := by
        rw [ssaWalkBack, if_pos h]
      obtain ⟨ih1, ih2, ih3⟩ := ih
      rw [hstep]
      refine ⟨by omega, ?_, ih3⟩
      intro m hm1 hm2
      rcases Nat.eq_or_lt_of_le hm2 with rfl | hm2'
      · exact h
      · exact ih2 m hm1 (by omega)
    · have hstep : ssaWalkBack rates (tr + 1) = tr + 1 := by
        rw [ssaWalkBack, if_neg h]
      rw [hstep]
      exact ⟨le_refl _, fun m h1 h2 => absurd (lt_of_lt_of_le h1 h2) (lt_irrefl _), Or.inl h⟩

lemma refreshFold_go (f : ℕ → CDouble) :
    ∀ (is : List ℕ) (t_rate : List ℚ) (d0 : ℚ) (err : ℤ),
      (∀ i ∈ is, i < t_rate.length) → is.Nodup →
      (is.foldl (refreshStep f) (t_rate, d0, err)).1.length = t_rate.length ∧
      (∀ i ∈ is, (is.foldl (refreshStep f) (t_rate, d0, err)).1.getD i 0 = (f i).val) ∧
      (∀ i, i ∉ is →
        (is.foldl (refreshStep f) (t_rate, d0, err)).1.getD i 0 = t_rate.getD i 0) ∧
      (is.foldl (refreshStep f) (t_rate, d0, err)).2.1 =
        d0 + (is.map (fun i => (f i).val - t_rate.getD i 0)).sum ∧
      (is.foldl (refreshStep f) (t_rate, d0, err)).2.2 =
        (if ∃ i ∈ is, invalidRate (f i) then SIMINF_ERR_INVALID_RATE else err) := by
  intro is
  induction is with
  | nil => intro t_rate d0 err _ _; simp
  | cons i t ih =>
    intro t_rate d0 err hb hd
    have hi : i < t_rate.length := hb i (List.mem_cons_self i t)
    have hnd : i ∉ t := (List.nodup_cons.mp hd).1
    have hstep : List.foldl (refreshStep f) (t_rate, d0, err) (i :: t) =
        List.foldl (refreshStep f)
          (t_rate.set i (f i).val, d0 + ((f i).val - t_rate.getD i 0),
           if invalidRate (f i) then SIMINF_ERR_INVALID_RATE else err) t := rfl
    have hb' : ∀ j ∈ t, j < (t_rate.set i (f i).val).length := by
      intro j hj
      simpa using hb j (List.mem_cons_of_mem i hj)
    obtain ⟨ih1, ih2, ih3, ih4, ih5⟩ := ih (t_rate.set i (f i).val)
      (d0 + ((f i).val - t_rate.getD i 0))
      (if invalidRate (f i) then SIMINF_ERR_INVALID_RATE else err)
      hb' (List.nodup_cons.mp hd).2
    rw [hstep]
    refine ⟨by simpa using ih1, ?_, ?_, ?_, ?_⟩
    · intro i' hi'
      rcases List.mem_cons.mp hi' with rfl | hmem
      · rw [ih3 i' hnd, getD_set_self _ _ hi]
      · exact ih2 i' hmem
    · intro i' hi'
      have h1 : i' ≠ i := fun h => hi' (h ▸ List.mem_cons_self i t)
      have h2 : i' ∉ t := fun h => hi' (List.mem_cons_of_mem i h)
      rw [ih3 i' h2, getD_set_ne _ (fun h => h1 h.symm)]
    · rw [ih4]
      have hmap : t.map (fun j => (f j).val - (t_rate.set i (f i).val).getD j 0) =
          t.map (fun j => (f j).val - t_rate.getD j 0) := by
        apply List.map_congr_left
        intro j hj
        have hij : i ≠ j := by
          intro h
          exact hnd (h ▸ hj)
        rw [getD_set_ne _ hij]
      rw [hmap, List.map_cons, List.sum_cons]
      ring
    · rw [ih5]
      by_cases h1 : invalidRate (f i)
      · simp [h1]
      · by_cases h2 : ∃ j ∈ t, invalidRate (f j)
        · simp [h1, h2]
        · have h3 : ¬ ∃ j ∈ i :: t, invalidRate (f j) := by
            intro ⟨j, hj, hinv⟩
            rcases List.mem_cons.mp hj with rfl | hmem
            · exact h1 hinv
            · exact h2 ⟨j, hmem, hinv⟩
          simp only [if_neg h1, if_neg h2, if_neg h3]

/-- Full characterization of a rate-refresh fold, for a column whose row
indices are distinct and in range: the listed rates are replaced by the
recomputed values, the others keep their cached values, the delta is the sum
of the differences, and the error code becomes SIMINF_ERR_INVALID_RATE
exactly when some recomputed rate is non-finite or negative. -/
lemma refreshFold_spec (f : ℕ → CDouble) (is : List ℕ) (t_rate : List ℚ)
    (err : ℤ) (hb : ∀ i ∈ is, i < t_rate.length) (hd : is.Nodup) :
    (refreshFold f is t_rate err).1.length = t_rate.length ∧
    (∀ i ∈ is, (refreshFold f is t_rate err).1.getD i 0 = (f i).val) ∧
    (∀ i, i ∉ is → (refreshFold f is t_rate err).1.getD i 0 = t_rate.getD i 0) ∧
    (refreshFold f is t_rate err).2.1 =
      (is.map (fun i => (f i).val - t_rate.getD i 0)).sum ∧
    (refreshFold f is t_rate err).2.2 =
      (if ∃ i ∈ is, invalidRate (f i) then SIMINF_ERR_INVALID_RATE else err) := by
  obtain ⟨h1, h2, h3, h4, h5⟩ := refreshFold_go f is t_rate 0 err hb hd
  exact ⟨h1, h2, h3, by rw [refreshFold, h4, zero_add], h5⟩

/-- Error-code component of a rate-refresh fold, with no well-formedness
assumptions: an invalid recomputed rate forces SIMINF_ERR_INVALID_RATE,
otherwise the incoming code is kept. -/
lemma refreshFold_err (f : ℕ → CDouble) (is : List ℕ) (t_rate : List ℚ)
    (err : ℤ) :
    (refreshFold f is t_rate err).2.2 =
      (if ∃ i ∈ is, invalidRate (f i) then SIMINF_ERR_INVALID_RATE else err) := by
  suffices h : ∀ (is : List ℕ) (p : List ℚ × ℚ × ℤ),
      (is.foldl (refreshStep f) p).2.2 =
        (if ∃ i ∈ is, invalidRate (f i) then SIMINF_ERR_INVALID_RATE else p.2.2) by
    exact h is (t_rate, 0, err)
  intro is
  induction is with
  | nil => intro p; simp
  | cons i t ih =>
    intro p
    rw [List.foldl_cons, ih]
    by_cases h1 : invalidRate (f i)
    · simp [refreshStep, h1]
    · by_cases h2 : ∃ j ∈ t, invalidRate (f j)
      · simp [refreshStep, h1, h2]
      · have h3 : ¬ ∃ j ∈ i :: t, invalidRate (f j) := by
          intro ⟨j, hj, hinv⟩
          rcases List.mem_cons.mp hj with rfl | hmem
          · exact h1 hinv
          · exact h2 ⟨j, hmem, hinv⟩
        simp only [if_neg h2, if_neg h3, refreshStep, if_neg h1]

lemma scFold_go (S : CSCi) :
    ∀ (js : List ℕ) (u : List ℤ) (err : ℤ),
      ((js.map (fun j => S.ir.getD j 0)).Nodup) →
      (∀ j ∈ js, S.ir.getD j 0 < u.length) →
      (js.foldl (scStep S) (u, err)).1.length = u.length ∧
      (∀ c, (js.foldl (scStep S) (u, err)).1.getD c 0 =
        u.getD c 0 + ((js.filter (fun j => S.ir.getD j 0 = c)).map
          (fun j => S.pr.getD j 0)).sum) ∧
      ((js.foldl (scStep S) (u, err)).2 = err ∨
        (js.foldl (scStep S) (u, err)).2 = SIMINF_ERR_NEGATIVE_STATE) ∧
      ((∃ j ∈ js, (js.foldl (scStep S) (u, err)).1.getD (S.ir.getD j 0) 0 < 0) →
        (js.foldl (scStep S) (u, err)).2 = SIMINF_ERR_NEGATIVE_STATE) := by
  intro js
  induction js with
  | nil =>
    intro u err _ _
    simp
  | cons j t ih =>
    intro u err hnd hb
    have hr : S.ir.getD j 0 < u.length := hb j (List.mem_cons_self j t)
    have hnd' : (t.map (fun j => S.ir.getD j 0)).Nodup := by
      rw [List.map_cons, List.nodup_cons] at hnd
      exact hnd.2
    have hrow : ∀ j' ∈ t, S.ir.getD j' 0 ≠ S.ir.getD j 0 := by
      intro j' hj' h
      rw [List.map_cons, List.nodup_cons] at hnd
      exact hnd.1 (h ▸ List.mem_map_of_mem (fun j => S.ir.getD j 0) hj')
    have hstep : List.foldl (scStep S) (u, err) (j :: t) =
        List.foldl (scStep S)
          (u.set (S.ir.getD j 0) (u.getD (S.ir.getD j 0) 0 + S.pr.getD j 0),
           if u.getD (S.ir.getD j 0) 0 + S.pr.getD j 0 < 0 then
             SIMINF_ERR_NEGATIVE_STATE else err) t := rfl
    have hb' : ∀ j' ∈ t, S.ir.getD j' 0 <
        (u.set (S.ir.getD j 0) (u.getD (S.ir.getD j 0) 0 + S.pr.getD j 0)).length := by
      intro j' hj'
      simpa using hb j' (List.mem_cons_of_mem j hj')
    obtain ⟨ih1, ih2, ih3, ih4⟩ := ih
      (u.set (S.ir.getD j 0) (u.getD (S.ir.getD j 0) 0 + S.pr.getD j 0))
      (if u.getD (S.ir.getD j 0) 0 + S.pr.getD j 0 < 0 then
        SIMINF_ERR_NEGATIVE_STATE else err) hnd' hb'
    rw [hstep]
    have hufinal : ∀ c, (List.foldl (scStep S)
        (u.set (S.ir.getD j 0) (u.getD (S.ir.getD j 0) 0 + S.pr.getD j 0),
         if u.getD (S.ir.getD j 0) 0 + S.pr.getD j 0 < 0 then
           SIMINF_ERR_NEGATIVE_STATE else err) t).1.getD c 0 =
        u.getD c 0 + (((j :: t).filter (fun j' => S.ir.getD j' 0 = c)).map
          (fun j' => S.pr.getD j' 0)).sum := by
      intro c
      rw [ih2 c]
      by_cases hc : S.ir.getD j 0 = c
      · subst hc
        have hfilt : t.filter (fun j' => S.ir.getD j' 0 = S.ir.getD j 0) = [] := by
          rw [List.filter_eq_nil_iff]
          intro j' hj'
          simpa using hrow j' hj'
        have hfilt2 : (j :: t).filter (fun j' => S.ir.getD j' 0 = S.ir.getD j 0) = [j] := by
          rw [List.filter_cons_of_pos (by simp), hfilt]
        rw [hfilt, hfilt2, getD_set_self _ _ hr]
        simp
      · have hfilt2 : (j :: t).filter (fun j' => S.ir.getD j' 0 = c) =
            t.filter (fun j' => S.ir.getD j' 0 = c) := by
          rw [List.filter_cons_of_neg (by simpa using hc)]
        rw [hfilt2, getD_set_ne _ hc]
    refine ⟨by simpa using ih1, hufinal, ?_, ?_⟩
    · rcases ih3 with h | h
      · rw [h]
        split_ifs with hneg
        · exact Or.inr rfl
        · exact Or.inl rfl
      · exact Or.inr h
    · intro ⟨j'', hj'', hneg⟩
      rcases List.mem_cons.mp hj'' with rfl | hmem
      · have hval : (List.foldl (scStep S)
            (u.set (S.ir.getD j'' 0) (u.getD (S.ir.getD j'' 0) 0 + S.pr.getD j'' 0),
             if u.getD (S.ir.getD j'' 0) 0 + S.pr.getD j'' 0 < 0 then
               SIMINF_ERR_NEGATIVE_STATE else err) t).1.getD (S.ir.getD j'' 0) 0 =
            u.getD (S.ir.getD j'' 0) 0 + S.pr.getD j'' 0 := by
          rw [hufinal (S.ir.getD j'' 0)]
          have hfilt : t.filter (fun j' => S.ir.getD j' 0 = S.ir.getD j'' 0) = [] := by
            rw [List.filter_eq_nil_iff]
            intro j' hj'
            simpa using hrow j' hj'
          rw [List.filter_cons_of_pos (by simp), hfilt]
          simp
        rw [hval] at hneg
        rcases ih3 with h | h
        · rw [h, if_pos hneg]
        · exact h
      · exact ih4 ⟨j'', hmem, hneg⟩

/-- Full characterization of step 1c, for a state-change column whose row
indices are distinct and in range: every compartment receives the value of
column `tr` at its row (zero off the column's rows), and the error code
becomes SIMINF_ERR_NEGATIVE_STATE if some updated compartment is negative,
and is otherwise passed through. -/
lemma SimInf_state_change_spec (S : CSCi) (tr : ℕ) (u : List ℤ) (err : ℤ)
    (hnd : ((colIdx S.jc tr).map (fun j => S.ir.getD j 0)).Nodup)
    (hb : ∀ j ∈ colIdx S.jc tr, S.ir.getD j 0 < u.length) :
    (SimInf_state_change S tr u err).1.length = u.length ∧
    (∀ c, (SimInf_state_change S tr u err).1.getD c 0 =
      u.getD c 0 + colValS S tr c) ∧
    ((SimInf_state_change S tr u err).2 = err ∨
      (SimInf_state_change S tr u err).2 = SIMINF_ERR_NEGATIVE_STATE) ∧
    ((∃ j ∈ colIdx S.jc tr,
        (SimInf_state_change S tr u err).1.getD (S.ir.getD j 0) 0 < 0) →
      (SimInf_state_change S tr u err).2 = SIMINF_ERR_NEGATIVE_STATE) := by
  exact scFold_go S (colIdx S.jc tr) u err hnd hb

/-- Error-code component of the rate-initialization fold of one node: an
invalid rate forces SIMINF_ERR_INVALID_RATE, otherwise the incoming code is
kept. -/
lemma initFold_err (g : ℕ → CDouble) (is : List ℕ) (t_rate : List ℚ)
    (s0 : ℚ) (err : ℤ) :
    (is.foldl (initStep g) (t_rate, s0, err)).2.2 =
      (if ∃ i ∈ is, invalidRate (g i) then SIMINF_ERR_INVALID_RATE else err) := by
  suffices h : ∀ (is : List ℕ) (p : List ℚ × ℚ × ℤ),
      (is.foldl (initStep g) p).2.2 =
        (if ∃ i ∈ is, invalidRate (g i) then SIMINF_ERR_INVALID_RATE else p.2.2) by
    exact h is (t_rate, s0, err)
  intro is
  induction is with
  | nil => intro p; simp
  | cons i t ih =>
    intro p
    rw [List.foldl_cons, ih]
    by_cases h1 : invalidRate (g i)
    · simp [initStep, h1]
    · by_cases h2 : ∃ j ∈ t, invalidRate (g j)
      · simp [initStep, h1, h2]
      · have h3 : ¬ ∃ j ∈ i :: t, invalidRate (g j) := by
          intro ⟨j, hj, hinv⟩
          rcases List.mem_cons.mp hj with rfl | hmem
          · exact h1 hinv
          · exact h2 ⟨j, hmem, hinv⟩
        simp only [if_neg h2, if_neg h3, initStep, if_neg h1]

lemma ssaStep_sum_nonpos (ctx : NodeCtx) (s : StepState) (h : s.sum_t_rate ≤ 0) :
    ssaStep ctx s = ({ s with t_time := ctx.next_day }, true) := by
  rw [ssaStep, if_pos h]

lemma ssaStep_day_end (ctx : NodeCtx) (s : StepState) (h1 : ¬ s.sum_t_rate ≤ 0)
    (h2 : ctx.next_day ≤ ctx.neglog (ctx.urand s.rngCur) / s.sum_t_rate + s.t_time) :
    ssaStep ctx s = ({ s with rngCur := s.rngCur + 1, t_time := ctx.next_day }, true) := by
  rw [ssaStep, if_neg h1]
  simp only [if_pos h2]

lemma ssaStep_null (ctx : NodeCtx) (s : StepState) (h1 : ¬ s.sum_t_rate ≤ 0)
    (h2 : ¬ ctx.next_day ≤ ctx.neglog (ctx.urand s.rngCur) / s.sum_t_rate + s.t_time)
    (h3 : ssaSelect ctx.Nt s.t_rate (ctx.urand (s.rngCur + 1) * s.sum_t_rate) = none) :
    ssaStep ctx s = ({ s with
      rngCur := s.rngCur + 2,
      t_time := s.t_time + ctx.neglog (ctx.urand s.rngCur) / s.sum_t_rate,
      sum_t_rate := 0 }, true) := by
  rw [ssaStep, if_neg h1]
  simp only [if_neg h2, h3]

lemma ssaStep_fire (ctx : NodeCtx) (s : StepState) (tr : ℕ) (h1 : ¬ s.sum_t_rate ≤ 0)
    (h2 : ¬ ctx.next_day ≤ ctx.neglog (ctx.urand s.rngCur) / s.sum_t_rate + s.t_time)
    (h3 : ssaSelect ctx.Nt s.t_rate (ctx.urand (s.rngCur + 1) * s.sum_t_rate) = some tr) :
    ssaStep ctx s = ({ s with
      rngCur := s.rngCur + 2,
      t_time := s.t_time + ctx.neglog (ctx.urand s.rngCur) / s.sum_t_rate,
      u := (SimInf_state_change ctx.S tr s.u s.errcode).1,
      t_rate := (SimInf_dep_refresh ctx.G ctx.cb
        (SimInf_state_change ctx.S tr s.u s.errcode).1 ctx.v ctx.ldata ctx.gdata
        (s.t_time + ctx.neglog (ctx.urand s.rngCur) / s.sum_t_rate) tr s.t_rate
        (SimInf_state_change ctx.S tr s.u s.errcode).2).1,
      sum_t_rate := s.sum_t_rate + (SimInf_dep_refresh ctx.G ctx.cb
        (SimInf_state_change ctx.S tr s.u s.errcode).1 ctx.v ctx.ldata ctx.gdata
        (s.t_time + ctx.neglog (ctx.urand s.rngCur) / s.sum_t_rate) tr s.t_rate
        (SimInf_state_change ctx.S tr s.u s.errcode).2).2.1,
      errcode := (SimInf_dep_refresh ctx.G ctx.cb
        (SimInf_state_change ctx.S tr s.u s.errcode).1 ctx.v ctx.ldata ctx.gdata
        (s.t_time + ctx.neglog (ctx.urand s.rngCur) / s.sum_t_rate) tr s.t_rate
        (SimInf_state_change ctx.S tr s.u s.errcode).2).2.2 }, false) := by
  rw [ssaStep, if_neg h1]
  simp only [if_neg h2, h3]

/-- When the cached sum agrees with the cached rates (the solver maintains
this in exact arithmetic), a transition draw with a uniform in the open unit
interval always selects a transition with a nonzero rate, without clamping
or walking back. -/
lemma ssaSelect_sync (Nt : ℕ) (rates : List ℚ) (u2 : ℚ)
    (hlen : rates.length = Nt) (hsum : 0 < rates.sum)
    (hu2a : 0 < u2) (hu2b : u2 < 1) :
    ∃ tr, ssaSelect Nt rates (u2 * rates.sum) = some tr ∧
      tr < Nt ∧ rates.getD tr 0 ≠ 0 := by
  have hNt : 0 < Nt := by
    rcases Nat.eq_zero_or_pos Nt with h | h
    · subst h
      rw [List.length_eq_zero] at hlen
      rw [hlen] at hsum
      simp at hsum
    · exact h
  have hrpos : 0 < u2 * rates.sum := mul_pos hu2a hsum
  have hrlt : u2 * rates.sum < rates.sum := by
    calc u2 * rates.sum < 1 * rates.sum := mul_lt_mul_of_pos_right hu2b hsum
    _ = rates.sum := one_mul _
  obtain ⟨h1, h2, h3⟩ := ssaScan_spec Nt rates (u2 * rates.sum)
  have hkNt : ssaScan Nt rates (u2 * rates.sum) < Nt := by
    by_contra hc
    have hke : ssaScan Nt rates (u2 * rates.sum) = Nt :=
      le_antisymm h1 (le_of_not_lt hc)
    have := h2 (Nt - 1) (by omega)
    rw [cumSum_of_length rates hlen hNt] at this
    linarith
  have hrand_le := h3 hkNt
  have hne : rates.getD (ssaScan Nt rates (u2 * rates.sum)) 0 ≠ 0 := by
    cases hk : ssaScan Nt rates (u2 * rates.sum) with
    | zero =>
      rw [hk, cumSum_zero] at hrand_le
      intro h0
      rw [h0] at hrand_le
      linarith
    | succ m =>
      have hlt := h2 m (by omega)
      rw [hk, cumSum_succ] at hrand_le
      intro h0
      rw [h0] at hrand_le
      linarith
  refine ⟨ssaScan Nt rates (u2 * rates.sum), ?_, hkNt, hne⟩
  rw [ssaSelect, ssaClamp]
  simp only [if_neg (not_le_of_lt hkNt), if_neg hne]

/-- C1: at each step of a node, if the cached rate sum is nonpositive the
node's time is set to `next_day` and stepping stops with the compartment
counts unchanged; otherwise a waiting time `tau = neglog(U1)/sum_t_rate` is
drawn (`neglog` embeds `-log` and `U1` is the next `gsl_rng_uniform_pos`
draw, which lies in the open unit interval), and if `t_time + tau` reaches
`next_day` the time is set to `next_day` and stepping stops without firing
a transition, else the time advances by `tau` and a transition is drawn and
applied to the compartment counts. The last branch assumes the solver's
invariant that the cached sum equals the sum of the cached rates, which
holds in exact arithmetic, and that the second uniform draw lies in the
open unit interval. -/
theorem ssa_step_day_structure (ctx : NodeCtx) (s : StepState)
    (hlen : s.t_rate.length = ctx.Nt)
    (hsync : s.sum_t_rate = s.t_rate.sum)
    (hu2a : 0 < ctx.urand (s.rngCur + 1)) (hu2b : ctx.urand (s.rngCur + 1) < 1) :
    (s.sum_t_rate ≤ 0 →
      ssaStep ctx s = ({ s with t_time := ctx.next_day }, true)) ∧
    (0 < s.sum_t_rate →
      ctx.next_day ≤ s.t_time + ctx.neglog (ctx.urand s.rngCur) / s.sum_t_rate →
      ssaStep ctx s = ({ s with rngCur := s.rngCur + 1, t_time := ctx.next_day }, true)) ∧
    (0 < s.sum_t_rate →
      s.t_time + ctx.neglog (ctx.urand s.rngCur) / s.sum_t_rate < ctx.next_day →
      (ssaStep ctx s).1.t_time =
        s.t_time + ctx.neglog (ctx.urand s.rngCur) / s.sum_t_rate ∧
      (ssaStep ctx s).2 = false ∧
      ∃ tr, ssaSelect ctx.Nt s.t_rate (ctx.urand (s.rngCur + 1) * s.sum_t_rate) = some tr ∧
        (ssaStep ctx s).1.u = (SimInf_state_change ctx.S tr s.u s.errcode).1) := by
  refine ⟨fun h => ssaStep_sum_nonpos ctx s h, fun h1 h2 => ?_, fun h1 h2 => ?_⟩
  · apply ssaStep_day_end ctx s (not_le_of_lt h1)
    rw [add_comm]
    exact h2
  · have h2' : ¬ ctx.next_day ≤
        ctx.neglog (ctx.urand s.rngCur) / s.sum_t_rate + s.t_time := by
      rw [add_comm]
      exact not_le_of_lt h2
    have hsum' : 0 < s.t_rate.sum := hsync ▸ h1
    obtain ⟨tr, hsel, _, _⟩ := ssaSelect_sync ctx.Nt s.t_rate
      (ctx.urand (s.rngCur + 1)) hlen hsum' hu2a hu2b
    rw [← hsync] at hsel
    rw [ssaStep_fire ctx s tr (not_le_of_lt h1) h2' hsel]
    exact ⟨rfl, rfl, tr, hsel, rfl⟩

/-- Concrete inputs exercising the three branches of the step theorem. -/
def ctxW : NodeCtx :=
  { Nt := 1, S := ⟨[], [0, 0], []⟩, G := ⟨[], [0, 0]⟩, v := [], ldata := [],
    gdata := [], next_day := 1, urand := fun _ => 1/2, neglog := fun _ => 1,
    cb := ⟨fun _ _ _ _ _ _ => ⟨true, 1⟩, fun vn _ _ _ _ _ _ => (vn, 0)⟩ }

def s1W : StepState := ⟨[5], [0], 0, 0, 0, 0⟩

def s2W : StepState := ⟨[5], [2], 2, 1/2, 0, 0⟩

def s3W : StepState := ⟨[5], [2], 2, 0, 0, 0⟩

unseal Rat.mul Rat.add Rat.inv Rat.sub in
/-- Witness for the step theorem: each branch applied at a concrete input
with its hypotheses discharged. -/
theorem ssa_step_day_structure_witness :
    (s1W.sum_t_rate ≤ 0 ∧
      ssaStep ctxW s1W = ({ s1W with t_time := ctxW.next_day }, true)) ∧
    (0 < s2W.sum_t_rate ∧
      ctxW.next_day ≤ s2W.t_time + ctxW.neglog (ctxW.urand s2W.rngCur) / s2W.sum_t_rate ∧
      ssaStep ctxW s2W =
        ({ s2W with rngCur := s2W.rngCur + 1, t_time := ctxW.next_day }, true)) ∧
    (0 < s3W.sum_t_rate ∧
      s3W.t_time + ctxW.neglog (ctxW.urand s3W.rngCur) / s3W.sum_t_rate < ctxW.next_day ∧
      (ssaStep ctxW s3W).1.t_time =
        s3W.t_time + ctxW.neglog (ctxW.urand s3W.rngCur) / s3W.sum_t_rate ∧
      (ssaStep ctxW s3W).2 = false ∧
      ∃ tr, ssaSelect ctxW.Nt s3W.t_rate
          (ctxW.urand (s3W.rngCur + 1) * s3W.sum_t_rate) = some tr ∧
        (ssaStep ctxW s3W).1.u = (SimInf_state_change ctxW.S tr s3W.u s3W.errcode).1) :=
  ⟨⟨by decide,
    (ssa_step_day_structure ctxW s1W (by decide) (by decide) (by decide) (by decide)).1
      (by decide)⟩,
   ⟨by decide, by decide,
    (ssa_step_day_structure ctxW s2W (by decide) (by decide) (by decide) (by decide)).2.1
      (by decide) (by decide)⟩,
   ⟨by decide, by decide,
    (ssa_step_day_structure ctxW s3W (by decide) (by decide) (by decide) (by decide)).2.2
      (by decide) (by decide)⟩⟩

/-- Index selection as the claim words it: the first index whose cumulative
sum strictly exceeds `rand` (`Nt` when none does). This definition follows
the claim's wording, for comparison with the scan the code performs. -/
def scanFirstExceeding (Nt : ℕ) (rates : List ℚ) (rand : ℚ) : ℕ :=
  (List.range Nt).findIdx (fun k => decide (rand < cumSum rates k))

unseal Rat.mul Rat.add Rat.inv Rat.sub in
/-- C2 counterexample: at rates `[1/2, 1/2]` with the sampled point
`r = U2 * sum_t_rate = 1/2` (where `U2 = 1/2` lies in the open unit
interval and the cached sum agrees with the cached rates), the scan of the
code picks index 0, whose cumulative sum equals `r` and does not exceed it,
while the first index whose cumulative sum exceeds `r` is 1. The scan
therefore picks the first index whose cumulative sum reaches or exceeds
`r`, not the first index whose cumulative sum exceeds it. -/
theorem ssa_scan_strict_counterexample :
    ssaScan 2 [1/2, 1/2] ((1/2) * List.sum [(1:ℚ)/2, 1/2]) = 0 ∧
    scanFirstExceeding 2 [1/2, 1/2] ((1/2) * List.sum [(1:ℚ)/2, 1/2]) = 1 ∧
    ¬ ((1/2 : ℚ) * List.sum [(1:ℚ)/2, 1/2] < cumSum [1/2, 1/2] 0) ∧
    (0 : ℚ) < 1/2 ∧ (1/2 : ℚ) < 1 := by
  decide

/-- C2 (amended: the scan picks the first index whose cumulative sum
reaches or exceeds `r = U2 * sum_t_rate[n]`): if the scan result is at
least `Nt` it is clamped to `Nt - 1`; if the rate at the selected index is
exactly zero, the selection walks backward to the nearest index with a
nonzero rate; if no nonzero rate exists at any index at or below the
clamped index, the step is a null event: `sum_t_rate` is set to 0 and the
node's stepping stops with no state change applied. -/
theorem ssa_transition_draw_hazards (Nt : ℕ) (rates : List ℚ) (rand : ℚ)
    (ctx : NodeCtx) (s : StepState) :
    (ssaScan Nt rates rand ≤ Nt ∧
      (∀ m, m < ssaScan Nt rates rand → cumSum rates m < rand) ∧
      (ssaScan Nt rates rand < Nt → rand ≤ cumSum rates (ssaScan Nt rates rand))) ∧
    (∀ tr0, Nt ≤ tr0 → ssaClamp Nt tr0 = Nt - 1) ∧
    (rates.getD (ssaClamp Nt (ssaScan Nt rates rand)) 0 = 0 →
      (∃ m, m ≤ ssaClamp Nt (ssaScan Nt rates rand) ∧ rates.getD m 0 ≠ 0) →
      ∃ i, ssaSelect Nt rates rand = some i ∧ rates.getD i 0 ≠ 0 ∧
        i ≤ ssaClamp Nt (ssaScan Nt rates rand) ∧
        ∀ m, i < m → m ≤ ssaClamp Nt (ssaScan Nt rates rand) → rates.getD m 0 = 0) ∧
    ((∀ m, m ≤ ssaClamp Nt (ssaScan Nt rates rand) → rates.getD m 0 = 0) →
      ssaSelect Nt rates rand = none) ∧
    (¬ s.sum_t_rate ≤ 0 →
      ¬ ctx.next_day ≤ ctx.neglog (ctx.urand s.rngCur) / s.sum_t_rate + s.t_time →
      ssaSelect ctx.Nt s.t_rate (ctx.urand (s.rngCur + 1) * s.sum_t_rate) = none →
      ssaStep ctx s = ({ s with
        rngCur := s.rngCur + 2,
        t_time := s.t_time + ctx.neglog (ctx.urand s.rngCur) / s.sum_t_rate,
        sum_t_rate := 0 }, true)) := by
  refine ⟨ssaScan_spec Nt rates rand, fun tr0 h => by rw [ssaClamp, if_pos h],
    ?_, ?_, fun h1 h2 h3 => ssaStep_null ctx s h1 h2 h3⟩
  · intro h0 ⟨m, hm, hmne⟩
    obtain ⟨hw1, hw2, hw3⟩ := ssaWalkBack_spec rates (ssaClamp Nt (ssaScan Nt rates rand))
    have hwne : rates.getD (ssaWalkBack rates (ssaClamp Nt (ssaScan Nt rates rand))) 0 ≠ 0 := by
      rcases hw3 with h | h
      · exact h
      · intro hz
        rcases Nat.eq_zero_or_pos m with rfl | hmpos
        · exact hmne (h ▸ hz)
        · exact hmne (hw2 m (h ▸ hmpos) hm)
    refine ⟨ssaWalkBack rates (ssaClamp Nt (ssaScan Nt rates rand)), ?_, hwne, hw1, hw2⟩
    rw [ssaSelect]
    simp only [if_pos h0, if_neg hwne]
  · intro hall
    have h0 : rates.getD (ssaClamp Nt (ssaScan Nt rates rand)) 0 = 0 :=
      hall _ (le_refl _)
    obtain ⟨hw1, _, _⟩ := ssaWalkBack_spec rates (ssaClamp Nt (ssaScan Nt rates rand))
    have hwz : rates.getD (ssaWalkBack rates (ssaClamp Nt (ssaScan Nt rates rand))) 0 = 0 :=
      hall _ hw1
    rw [ssaSelect]
    simp only [if_pos h0, if_pos hwz]

/-- Context exercising the null-event branch of the draw theorem. -/
def ctxW2 : NodeCtx :=
  { ctxW with neglog := fun _ => 1/2 }

def s4W : StepState := ⟨[4], [0], 1, 0, 0, 0⟩

unseal Rat.mul Rat.add Rat.inv Rat.sub in
/-- Witness for the transition-draw theorem: the clamp together with the
backward walk at a concrete overshooting scan, the null event at an
all-zero rate vector, and the null-event step at a concrete state. -/
theorem ssa_transition_draw_hazards_witness :
    ((3:ℕ) ≤ 3 ∧ ssaClamp 3 3 = 2) ∧
    ([(2:ℚ), 0, 0].getD (ssaClamp 3 (ssaScan 3 [2, 0, 0] 5)) 0 = 0 ∧
      (1 ≤ ssaClamp 3 (ssaScan 3 [2, 0, 0] 5) ∧ [(2:ℚ), 0, 0].getD 0 0 ≠ 0) ∧
      (∃ i, ssaSelect 3 [2, 0, 0] 5 = some i ∧ [(2:ℚ), 0, 0].getD i 0 ≠ 0 ∧
        i ≤ ssaClamp 3 (ssaScan 3 [2, 0, 0] 5) ∧
        ∀ m, i < m → m ≤ ssaClamp 3 (ssaScan 3 [2, 0, 0] 5) →
          [(2:ℚ), 0, 0].getD m 0 = 0)) ∧
    ((∀ m, m ≤ ssaClamp 3 (ssaScan 3 [(0:ℚ), 0, 0] (1/2)) →
        [(0:ℚ), 0, 0].getD m 0 = 0) ∧
      ssaSelect 3 [(0:ℚ), 0, 0] (1/2) = none) ∧
    (¬ s4W.sum_t_rate ≤ 0 ∧
      ¬ ctxW2.next_day ≤ ctxW2.neglog (ctxW2.urand s4W.rngCur) / s4W.sum_t_rate + s4W.t_time ∧
      ssaSelect ctxW2.Nt s4W.t_rate (ctxW2.urand (s4W.rngCur + 1) * s4W.sum_t_rate) = none ∧
      ssaStep ctxW2 s4W = ({ s4W with
        rngCur := s4W.rngCur + 2,
        t_time := s4W.t_time + ctxW2.neglog (ctxW2.urand s4W.rngCur) / s4W.sum_t_rate,
        sum_t_rate := 0 }, true)) :=
  ⟨⟨by decide, (ssa_transition_draw_hazards 3 [2, 0, 0] 5 ctxW2 s4W).2.1 3 (by decide)⟩,
   ⟨by decide, ⟨by decide, by decide⟩,
    (ssa_transition_draw_hazards 3 [2, 0, 0] 5 ctxW2 s4W).2.2.1 (by decide)
      ⟨0, by decide, by decide⟩⟩,
   ⟨by decide,
    (ssa_transition_draw_hazards 3 [(0:ℚ), 0, 0] (1/2) ctxW2 s4W).2.2.2.1
      (by decide)⟩,
   ⟨by decide, by decide, by decide,
    (ssa_transition_draw_hazards 1 [(0:ℚ)] 0 ctxW2 s4W).2.2.2.2
      (by decide) (by decide) (by decide)⟩⟩

/-- C3: when transition `tr` fires, the state change adds column `tr` of
the state-change matrix (named `N` in the spec, held in the `irS/jcS/prS`
triple of the solver) to the node's compartment counts: every row `r` of
column `tr` receives `u[n][r] += N[r,tr]`, rows outside the column are
unchanged (their column value is zero), and if any updated count is
negative the worker's error code is set to SIMINF_ERR_NEGATIVE_STATE. The
hypotheses state the CSC well-formedness of the column: its row indices are
distinct and within the compartment vector. -/
theorem state_change_applies_column (S : CSCi) (tr : ℕ) (u : List ℤ) (err : ℤ)
    (hnd : ((colIdx S.jc tr).map (fun j => S.ir.getD j 0)).Nodup)
    (hb : ∀ j ∈ colIdx S.jc tr, S.ir.getD j 0 < u.length) :
    (SimInf_state_change S tr u err).1.length = u.length ∧
    (∀ c, (SimInf_state_change S tr u err).1.getD c 0 =
      u.getD c 0 + colValS S tr c) ∧
    ((∃ j ∈ colIdx S.jc tr,
        (SimInf_state_change S tr u err).1.getD (S.ir.getD j 0) 0 < 0) →
      (SimInf_state_change S tr u err).2 = SIMINF_ERR_NEGATIVE_STATE) := by
  obtain ⟨h1, h2, _, h4⟩ := SimInf_state_change_spec S tr u err hnd hb
  exact ⟨h1, h2, h4⟩

/-- State-change matrix with column 0 holding rows 0 and 1. -/
def SW : CSCi := ⟨[0, 1], [0, 2, 2], [-3, 1]⟩

unseal Rat.mul Rat.add Rat.inv Rat.sub in
/-- Witness for the state-change theorem at a concrete column that drives a
compartment negative. -/
theorem state_change_applies_column_witness :
    (((colIdx SW.jc 0).map (fun j => SW.ir.getD j 0)).Nodup ∧
      (∀ j ∈ colIdx SW.jc 0, SW.ir.getD j 0 < [(2:ℤ), 5].length)) ∧
    (SimInf_state_change SW 0 [2, 5] 0).1.length = [(2:ℤ), 5].length ∧
    (∀ c, (SimInf_state_change SW 0 [2, 5] 0).1.getD c 0 =
      [(2:ℤ), 5].getD c 0 + colValS SW 0 c) ∧
    ((∃ j ∈ colIdx SW.jc 0,
        (SimInf_state_change SW 0 [2, 5] 0).1.getD (SW.ir.getD j 0) 0 < 0) →
      (SimInf_state_change SW 0 [2, 5] 0).2 = SIMINF_ERR_NEGATIVE_STATE) :=
  ⟨⟨by decide, by decide⟩,
    state_change_applies_column SW 0 [2, 5] 0 (by decide) (by decide)⟩

/-- C4: after transition `tr` fires, rates are refreshed through the
dependency graph: exactly the propensities whose row indices appear in
column `tr` of `G` are recomputed at the node's advanced time, each new
value replaces the cached `t_rate` entry, the accumulated delta
`new - old` over those entries is added to `sum_t_rate`, and every
propensity not listed in the column keeps its cached value. The first
hypotheses state CSC well-formedness of the column (distinct in-range row
indices); the final conjunct places the refresh inside the fired step,
where the call time is the node's just-advanced `t_time`. -/
theorem dep_graph_refresh (G : CSCp) (cb : Callbacks) (u : List ℤ)
    (v ld gd : List ℚ) (t : ℚ) (tr : ℕ) (t_rate : List ℚ) (err : ℤ)
    (hb : ∀ i ∈ colRows G tr, i < t_rate.length) (hnd : (colRows G tr).Nodup) :
    (∀ i ∈ colRows G tr,
      (SimInf_dep_refresh G cb u v ld gd t tr t_rate err).1.getD i 0 =
        (cb.tr_fun i u v ld gd t).val) ∧
    (∀ i, i ∉ colRows G tr →
      (SimInf_dep_refresh G cb u v ld gd t tr t_rate err).1.getD i 0 =
        t_rate.getD i 0) ∧
    (SimInf_dep_refresh G cb u v ld gd t tr t_rate err).2.1 =
      ((colRows G tr).map
        (fun i => (cb.tr_fun i u v ld gd t).val - t_rate.getD i 0)).sum ∧
    (∀ (ctx : NodeCtx) (s : StepState) (tr' : ℕ),
      ¬ s.sum_t_rate ≤ 0 →
      ¬ ctx.next_day ≤ ctx.neglog (ctx.urand s.rngCur) / s.sum_t_rate + s.t_time →
      ssaSelect ctx.Nt s.t_rate (ctx.urand (s.rngCur + 1) * s.sum_t_rate) = some tr' →
      (ssaStep ctx s).1.t_time =
        s.t_time + ctx.neglog (ctx.urand s.rngCur) / s.sum_t_rate ∧
      (ssaStep ctx s).1.t_rate = (SimInf_dep_refresh ctx.G ctx.cb
        (SimInf_state_change ctx.S tr' s.u s.errcode).1 ctx.v ctx.ldata ctx.gdata
        ((ssaStep ctx s).1.t_time) tr' s.t_rate
        (SimInf_state_change ctx.S tr' s.u s.errcode).2).1 ∧
      (ssaStep ctx s).1.sum_t_rate = s.sum_t_rate + (SimInf_dep_refresh ctx.G ctx.cb
        (SimInf_state_change ctx.S tr' s.u s.errcode).1 ctx.v ctx.ldata ctx.gdata
        ((ssaStep ctx s).1.t_time) tr' s.t_rate
        (SimInf_state_change ctx.S tr' s.u s.errcode).2).2.1) := by
  obtain ⟨_, h2, h3, h4, _⟩ := refreshFold_spec
    (fun i => cb.tr_fun i u v ld gd t) (colRows G tr) t_rate err hb hnd
  refine ⟨h2, h3, h4, ?_⟩
  intro ctx s tr' hs1 hs2 hs3
  rw [ssaStep_fire ctx s tr' hs1 hs2 hs3]
  exact ⟨rfl, rfl, rfl⟩

/-- Dependency graph with column 0 holding rows 0 and 1. -/
def GW : CSCp := ⟨[0, 1], [0, 2, 2]⟩

/-- Callbacks whose propensities distinguish transition 0 from the rest and
read the call time. -/
def cbW : Callbacks :=
  ⟨fun j _u _v _ld _gd t => if j = 0 then ⟨true, 3⟩ else ⟨true, t⟩,
   fun vn _u _v _ld _gd _g _t => (vn, 0)⟩

unseal Rat.mul Rat.add Rat.inv Rat.sub in
/-- Witness for the dependency-refresh theorem: a concrete refresh of rows
0 and 1 at time 2, and the refresh embedded in a concrete fired step. -/
theorem dep_graph_refresh_witness :
    ((∀ i ∈ colRows GW 0, i < [(1:ℚ), 1].length) ∧ (colRows GW 0).Nodup) ∧
    (∀ i ∈ colRows GW 0,
      (SimInf_dep_refresh GW cbW [7] [] [] [] 2 0 [1, 1] 0).1.getD i 0 =
        (cbW.tr_fun i [7] [] [] [] 2).val) ∧
    (∀ i, i ∉ colRows GW 0 →
      (SimInf_dep_refresh GW cbW [7] [] [] [] 2 0 [1, 1] 0).1.getD i 0 =
        [(1:ℚ), 1].getD i 0) ∧
    (SimInf_dep_refresh GW cbW [7] [] [] [] 2 0 [1, 1] 0).2.1 =
      ((colRows GW 0).map
        (fun i => (cbW.tr_fun i [7] [] [] [] 2).val - [(1:ℚ), 1].getD i 0)).sum ∧
    ((ssaStep ctxW s3W).1.t_time =
        s3W.t_time + ctxW.neglog (ctxW.urand s3W.rngCur) / s3W.sum_t_rate ∧
      (ssaStep ctxW s3W).1.t_rate = (SimInf_dep_refresh ctxW.G ctxW.cb
        (SimInf_state_change ctxW.S 0 s3W.u s3W.errcode).1 ctxW.v ctxW.ldata ctxW.gdata
        ((ssaStep ctxW s3W).1.t_time) 0 s3W.t_rate
        (SimInf_state_change ctxW.S 0 s3W.u s3W.errcode).2).1 ∧
      (ssaStep ctxW s3W).1.sum_t_rate = s3W.sum_t_rate + (SimInf_dep_refresh ctxW.G ctxW.cb
        (SimInf_state_change ctxW.S 0 s3W.u s3W.errcode).1 ctxW.v ctxW.ldata ctxW.gdata
        ((ssaStep ctxW s3W).1.t_time) 0 s3W.t_rate
        (SimInf_state_change ctxW.S 0 s3W.u s3W.errcode).2).2.1) :=
  ⟨⟨by decide, by decide⟩,
   (dep_graph_refresh GW cbW [7] [] [] [] 2 0 [1, 1] 0 (by decide) (by decide)).1,
   (dep_graph_refresh GW cbW [7] [] [] [] 2 0 [1, 1] 0 (by decide) (by decide)).2.1,
   (dep_graph_refresh GW cbW [7] [] [] [] 2 0 [1, 1] 0 (by decide) (by decide)).2.2.1,
   (dep_graph_refresh GW cbW [7] [] [] [] 2 0 [1, 1] 0 (by decide) (by decide)).2.2.2
     ctxW s3W 0 (by decide) (by decide) (by decide)⟩

lemma partition_unique_owner (Nn T : ℕ) (node : ℕ) :
    ∀ a b, a < T → partNi Nn T a ≤ node → node < partNi Nn T a + partCnt Nn T a →
      b < T → partNi Nn T b ≤ node → node < partNi Nn T b + partCnt Nn T b →
      a = b := by
  have key : ∀ a b, a < b → b < T → partNi Nn T a ≤ node →
      node < partNi Nn T a + partCnt Nn T a → partNi Nn T b ≤ node → False := by
    intro a b hab hbT _ hahi hblo
    have haT1 : a ≠ T - 1 := by omega
    have hcnt : partCnt Nn T a = Nn / T := by
      rw [partCnt, if_neg haT1, add_zero]
    have h1 : node < (a + 1) * (Nn / T) := by
      rw [Nat.succ_mul]
      rw [partNi, hcnt] at hahi
      exact hahi
    have h2 : (a + 1) * (Nn / T) ≤ b * (Nn / T) :=
      Nat.mul_le_mul_right _ (by omega)
    rw [partNi] at hblo
    omega
  intro a b ha halo hahi hb hblo hbhi
  rcases Nat.lt_trichotomy a b with h | h | h
  · exact absurd (key a b h hb halo hahi hblo) (fun f => f)
  · exact h
  · exact absurd (key b a h ha hblo hbhi halo) (fun f => f)

/-- C8: the static node partition gives worker `i` the contiguous range
starting at `Ni = i * (Nn / Nthread)` of length `Nn / Nthread`, with the
remainder `Nn % Nthread` added to the last worker; consecutive ranges are
adjacent, the last range ends exactly at `Nn`, and every node below `Nn`
belongs to exactly one worker's range. -/
theorem static_node_partition (Nn Nthread : ℕ) (hT : 0 < Nthread) :
    (∀ i, partNi Nn Nthread i = i * (Nn / Nthread)) ∧
    (∀ i, i < Nthread - 1 →
      partNi Nn Nthread i + partCnt Nn Nthread i = partNi Nn Nthread (i + 1)) ∧
    partNi Nn Nthread (Nthread - 1) + partCnt Nn Nthread (Nthread - 1) = Nn ∧
    (∀ node, node < Nn →
      ∃! i, i < Nthread ∧ partNi Nn Nthread i ≤ node ∧
        node < partNi Nn Nthread i + partCnt Nn Nthread i) := by
  have hqr : Nthread * (Nn / Nthread) + Nn % Nthread = Nn := Nat.div_add_mod Nn Nthread
  refine ⟨fun i => rfl, ?_, ?_, ?_⟩
  · intro i hi
    rw [partNi, partNi, partCnt, if_neg (by omega : i ≠ Nthread - 1), add_zero,
      Nat.succ_mul]
  · rw [partNi, partCnt, if_pos rfl]
    have hmul : (Nthread - 1) * (Nn / Nthread) + (Nn / Nthread) = Nthread * (Nn / Nthread) := by
      rw [← Nat.succ_mul]
      congr 1
      omega
    omega
  · intro node hn
    by_cases hcase : 0 < Nn / Nthread ∧ node / (Nn / Nthread) < Nthread - 1
    · obtain ⟨hq, hd⟩ := hcase
      refine ⟨node / (Nn / Nthread), ⟨by omega, ?_, ?_⟩, ?_⟩
      · rw [partNi]
        exact Nat.div_mul_le_self node (Nn / Nthread)
      · rw [partNi, partCnt, if_neg (by omega : node / (Nn / Nthread) ≠ Nthread - 1),
          add_zero]
        have h1 := Nat.div_add_mod node (Nn / Nthread)
        have h2 := Nat.mod_lt node hq
        have h3 : (Nn / Nthread) * (node / (Nn / Nthread)) =
            node / (Nn / Nthread) * (Nn / Nthread) := Nat.mul_comm _ _
        omega
      · intro y hy
        exact partition_unique_owner Nn Nthread node y (node / (Nn / Nthread))
          hy.1 hy.2.1 hy.2.2 (by omega)
          (by rw [partNi]; exact Nat.div_mul_le_self node (Nn / Nthread))
          (by
            rw [partNi, partCnt, if_neg (by omega : node / (Nn / Nthread) ≠ Nthread - 1),
              add_zero]
            have h1 := Nat.div_add_mod node (Nn / Nthread)
            have h2 := Nat.mod_lt node hq
            have h3 : (Nn / Nthread) * (node / (Nn / Nthread)) =
                node / (Nn / Nthread) * (Nn / Nthread) := Nat.mul_comm _ _
            omega)
    · have hlast : partNi Nn Nthread (Nthread - 1) ≤ node ∧
          node < partNi Nn Nthread (Nthread - 1) + partCnt Nn Nthread (Nthread - 1) := by
        constructor
        · rw [partNi]
          rcases Nat.eq_zero_or_pos (Nn / Nthread) with hq0 | hq
          · simp [hq0]
          · have hd : Nthread - 1 ≤ node / (Nn / Nthread) := by omega
            calc (Nthread - 1) * (Nn / Nthread)
                ≤ node / (Nn / Nthread) * (Nn / Nthread) :=
                  Nat.mul_le_mul_right _ hd
              _ ≤ node := Nat.div_mul_le_self node (Nn / Nthread)
        · rw [partNi, partCnt, if_pos rfl]
          have hmul : (Nthread - 1) * (Nn / Nthread) + (Nn / Nthread) =
              Nthread * (Nn / Nthread) := by
            rw [← Nat.succ_mul]
            congr 1
            omega
          omega
      refine ⟨Nthread - 1, ⟨by omega, hlast.1, hlast.2⟩, ?_⟩
      intro y hy
      exact partition_unique_owner Nn Nthread node y (Nthread - 1)
        hy.1 hy.2.1 hy.2.2 (by omega) hlast.1 hlast.2

/-- Witness for the partition theorem at `Nn = 5`, `Nthread = 2`: ranges
`[0, 2)` and `[2, 5)`. -/
theorem static_node_partition_witness :
    (0 < 2 ∧ partNi 5 2 0 = 0 ∧ partCnt 5 2 0 = 2 ∧
      partNi 5 2 1 = 2 ∧ partCnt 5 2 1 = 3) ∧
    partNi 5 2 (2 - 1) + partCnt 5 2 (2 - 1) = 5 ∧
    (∃! i, i < 2 ∧ partNi 5 2 i ≤ 3 ∧ 3 < partNi 5 2 i + partCnt 5 2 i) :=
  ⟨⟨by decide, by decide, by decide, by decide, by decide⟩,
   (static_node_partition 5 2 (by decide)).2.2.1,
   (static_node_partition 5 2 (by decide)).2.2.2 3 (by decide)⟩

/-- C9: in the post-timestep phase of one node, a callback return code
below zero is latched as the error code and breaks the per-node loop,
leaving the remaining nodes untouched; a positive return code or a set
`update_node` flag triggers a full recomputation of all `Nt` propensities
(reading the callback's `v_new` output at the pre-advance time `tt`), adds
the accumulated delta to `sum_t_rate` and clears the flag; a zero return
code with a clear flag leaves the cached rates, their sum and the incoming
error code unchanged. -/
theorem post_timestep_phase (A : SolverArgs) (cb : Callbacks) (tt : ℚ)
    (g : ℕ) (nd : NodeW) (err : ℤ) (Ni n : ℕ) (rest : List NodeW)
    (hlen : nd.t_rate.length = A.Nt) :
    ((cb.pts_fun nd.v_new nd.u nd.v (ldOf A g) A.gdata g tt).2 < 0 →
      SimInf_post_node A cb tt g nd err =
        ({ nd with v_new := (cb.pts_fun nd.v_new nd.u nd.v (ldOf A g) A.gdata g tt).1 },
         (cb.pts_fun nd.v_new nd.u nd.v (ldOf A g) A.gdata g tt).2, true)) ∧
    (¬ (cb.pts_fun nd.v_new nd.u nd.v (ldOf A g) A.gdata g tt).2 < 0 →
      (0 < (cb.pts_fun nd.v_new nd.u nd.v (ldOf A g) A.gdata g tt).2 ∨
        nd.update_node ≠ 0) →
      (∀ j, j < A.Nt → (SimInf_post_node A cb tt g nd err).1.t_rate.getD j 0 =
        (cb.tr_fun j nd.u (cb.pts_fun nd.v_new nd.u nd.v (ldOf A g) A.gdata g tt).1
          (ldOf A g) A.gdata tt).val) ∧
      (SimInf_post_node A cb tt g nd err).1.sum_t_rate = nd.sum_t_rate +
        ((List.range A.Nt).map (fun j =>
          (cb.tr_fun j nd.u (cb.pts_fun nd.v_new nd.u nd.v (ldOf A g) A.gdata g tt).1
            (ldOf A g) A.gdata tt).val - nd.t_rate.getD j 0)).sum ∧
      (SimInf_post_node A cb tt g nd err).1.update_node = 0 ∧
      (SimInf_post_node A cb tt g nd err).2.2 = false) ∧
    ((cb.pts_fun nd.v_new nd.u nd.v (ldOf A g) A.gdata g tt).2 = 0 →
      nd.update_node = 0 →
      SimInf_post_node A cb tt g nd err =
        ({ nd with v_new := (cb.pts_fun nd.v_new nd.u nd.v (ldOf A g) A.gdata g tt).1 },
         err, false)) ∧
    ((SimInf_post_node A cb tt (Ni + n) nd err).2.2 = true →
      postNodesGo A cb tt Ni n (nd :: rest) err =
        ((SimInf_post_node A cb tt (Ni + n) nd err).1 :: rest,
         (SimInf_post_node A cb tt (Ni + n) nd err).2.1)) := by
  refine ⟨?_, ?_, ?_, ?_⟩
  · intro hrc
    rw [SimInf_post_node]
    simp only [if_pos hrc]
  · intro hrc hupd
    have hunf : SimInf_post_node A cb tt g nd err =
        ({ nd with
            v_new := (cb.pts_fun nd.v_new nd.u nd.v (ldOf A g) A.gdata g tt).1,
            t_rate := (refreshFold (fun j => cb.tr_fun j nd.u
              (cb.pts_fun nd.v_new nd.u nd.v (ldOf A g) A.gdata g tt).1
              (ldOf A g) A.gdata tt) (List.range A.Nt) nd.t_rate err).1,
            sum_t_rate := nd.sum_t_rate + (refreshFold (fun j => cb.tr_fun j nd.u
              (cb.pts_fun nd.v_new nd.u nd.v (ldOf A g) A.gdata g tt).1
              (ldOf A g) A.gdata tt) (List.range A.Nt) nd.t_rate err).2.1,
            update_node := 0 },
         (refreshFold (fun j => cb.tr_fun j nd.u
            (cb.pts_fun nd.v_new nd.u nd.v (ldOf A g) A.gdata g tt).1
            (ldOf A g) A.gdata tt) (List.range A.Nt) nd.t_rate err).2.2, false) := by
      rw [SimInf_post_node]
      simp only [if_neg hrc, if_pos hupd]
    obtain ⟨_, h2, _, h4, _⟩ := refreshFold_spec
      (fun j => cb.tr_fun j nd.u
        (cb.pts_fun nd.v_new nd.u nd.v (ldOf A g) A.gdata g tt).1
        (ldOf A g) A.gdata tt)
      (List.range A.Nt) nd.t_rate err
      (fun i hi => by rw [hlen]; exact List.mem_range.mp hi)
      (List.nodup_range A.Nt)
    rw [hunf]
    exact ⟨fun j hj => h2 j (List.mem_range.mpr hj), by rw [h4], rfl, rfl⟩
  · intro hrc hupd
    rw [SimInf_post_node]
    simp only [hrc, hupd]
    norm_num
  · intro hbrk
    rw [postNodesGo, if_pos hbrk]

/-- Solver arguments used by the post-timestep witnesses. -/
def exArgsW : SolverArgs :=
  { Nn := 1, Nc := 1, Nt := 2, Nd := 1, Nld := 1,
    G := ⟨[], [0, 0, 0]⟩, S := ⟨[], [0, 0, 0], []⟩,
    tspan := [0, 1], tlen := 2, u0 := [4], v0 := [1],
    ldata := [0], gdata := [], Nthread := 1, seed := 0 }

/-- Node state exercising the post-timestep branches. -/
def ndW : NodeW :=
  { u := [4], v := [1], v_new := [2], t_rate := [1, 1], sum_t_rate := 2,
    t_time := 0, update_node := 1 }

/-- Callbacks whose post-timestep function returns code 0 but whose
update flag is set, forcing a full refresh in the witness. -/
def cbW2 : Callbacks :=
  ⟨fun j _u _v _ld _gd _t => if j = 0 then ⟨true, 3⟩ else ⟨true, 5⟩,
   fun vn _u _v _ld _gd _g _t => (vn, 0)⟩

/-- Callbacks whose post-timestep function fails with code -7. -/
def cbW3 : Callbacks :=
  ⟨fun _j _u _v _ld _gd _t => ⟨true, 1⟩,
   fun vn _u _v _ld _gd _g _t => (vn, -7)⟩

unseal Rat.mul Rat.add Rat.inv Rat.sub in
/-- Witness for the post-timestep theorem: the fatal branch with its loop
break, and the full-refresh branch under a set update flag. -/
theorem post_timestep_phase_witness :
    ((cbW3.pts_fun ndW.v_new ndW.u ndW.v (ldOf exArgsW 0) exArgsW.gdata 0 0).2 < 0 ∧
      SimInf_post_node exArgsW cbW3 0 0 ndW 0 =
        ({ ndW with v_new := (cbW3.pts_fun ndW.v_new ndW.u ndW.v
            (ldOf exArgsW 0) exArgsW.gdata 0 0).1 },
         (cbW3.pts_fun ndW.v_new ndW.u ndW.v (ldOf exArgsW 0) exArgsW.gdata 0 0).2,
         true)) ∧
    (postNodesGo exArgsW cbW3 0 0 0 [ndW] 0 =
      ((SimInf_post_node exArgsW cbW3 0 (0 + 0) ndW 0).1 :: [],
       (SimInf_post_node exArgsW cbW3 0 (0 + 0) ndW 0).2.1)) ∧
    ((∀ j, j < exArgsW.Nt →
        (SimInf_post_node exArgsW cbW2 0 0 ndW 0).1.t_rate.getD j 0 =
          (cbW2.tr_fun j ndW.u (cbW2.pts_fun ndW.v_new ndW.u ndW.v
            (ldOf exArgsW 0) exArgsW.gdata 0 0).1 (ldOf exArgsW 0)
            exArgsW.gdata 0).val) ∧
      (SimInf_post_node exArgsW cbW2 0 0 ndW 0).1.sum_t_rate = ndW.sum_t_rate +
        ((List.range exArgsW.Nt).map (fun j =>
          (cbW2.tr_fun j ndW.u (cbW2.pts_fun ndW.v_new ndW.u ndW.v
            (ldOf exArgsW 0) exArgsW.gdata 0 0).1 (ldOf exArgsW 0)
            exArgsW.gdata 0).val - ndW.t_rate.getD j 0)).sum ∧
      (SimInf_post_node exArgsW cbW2 0 0 ndW 0).1.update_node = 0 ∧
      (SimInf_post_node exArgsW cbW2 0 0 ndW 0).2.2 = false) :=
  ⟨⟨by decide,
    (post_timestep_phase exArgsW cbW3 0 0 ndW 0 0 0 [] (by decide)).1 (by decide)⟩,
   (post_timestep_phase exArgsW cbW3 0 0 ndW 0 0 0 [] (by decide)).2.2.2 (by decide),
   (post_timestep_phase exArgsW cbW2 0 0 ndW 0 0 0 [] (by decide)).2.1
     (by decide) (by decide)⟩

/-- Test of whether some propensity of some node in the list returns an
invalid value at time `tt` during initialization; `n` is the offset of the
first listed node inside the worker's partition. -/
def badNodes (A : SolverArgs) (cb : Callbacks) (tt : ℚ) (Ni : ℕ) :
    ℕ → List NodeW → Bool
  | _, [] => false
  | n, nd :: rest =>
    ((List.range A.Nt).any (fun j =>
      invalidRate (cb.tr_fun j nd.u nd.v (ldOf A (Ni + n)) A.gdata tt))) ||
    badNodes A cb tt Ni (n + 1) rest

/-- Test of whether some propensity of some node of the worker returns an
invalid value at initialization. -/
def badW (A : SolverArgs) (cb : Callbacks) (w : Worker) : Bool :=
  badNodes A cb w.tt w.Ni 0 w.nodes

lemma SimInf_init_node_err (Nt : ℕ) (cb : Callbacks) (tt : ℚ)
    (ld gd : List ℚ) (nd : NodeW) (err : ℤ) :
    (SimInf_init_node Nt cb tt ld gd nd err).2 =
      (if ∃ j ∈ List.range Nt, invalidRate (cb.tr_fun j nd.u nd.v ld gd tt) then
        SIMINF_ERR_INVALID_RATE else err) :=
  initFold_err (fun j => cb.tr_fun j nd.u nd.v ld gd tt)
    (List.range Nt) nd.t_rate 0 err

lemma initNodesGo_err (A : SolverArgs) (cb : Callbacks) (tt : ℚ) (Ni : ℕ) :
    ∀ (nds : List NodeW) (n : ℕ) (err : ℤ),
      (initNodesGo A cb tt Ni n nds err).2 =
        (if badNodes A cb tt Ni n nds = true then SIMINF_ERR_INVALID_RATE else err) := by
  intro nds
  induction nds with
  | nil => intro n err; simp [initNodesGo, badNodes]
  | cons nd rest ih =>
    intro n err
    show (initNodesGo A cb tt Ni (n + 1) rest
      (SimInf_init_node A.Nt cb tt (ldOf A (Ni + n)) A.gdata nd err).2).2 = _
    rw [ih, SimInf_init_node_err, badNodes]
    by_cases h1 : (List.range A.Nt).any (fun j =>
        invalidRate (cb.tr_fun j nd.u nd.v (ldOf A (Ni + n)) A.gdata tt)) = true
    · have h1' : ∃ j ∈ List.range A.Nt,
          invalidRate (cb.tr_fun j nd.u nd.v (ldOf A (Ni + n)) A.gdata tt) :=
        List.any_eq_true.mp h1
      simp only [h1, if_pos h1', Bool.true_or, if_pos rfl]
      split_ifs <;> rfl
    · have h1' : ¬ ∃ j ∈ List.range A.Nt,
          invalidRate (cb.tr_fun j nd.u nd.v (ldOf A (Ni + n)) A.gdata tt) :=
        fun hx => h1 (List.any_eq_true.mpr hx)
      simp only [if_neg h1']
      have hb : ((List.range A.Nt).any (fun j =>
          invalidRate (cb.tr_fun j nd.u nd.v (ldOf A (Ni + n)) A.gdata tt)) ||
          badNodes A cb tt Ni (n + 1) rest) = badNodes A cb tt Ni (n + 1) rest := by
        cases hh : (List.range A.Nt).any (fun j =>
            invalidRate (cb.tr_fun j nd.u nd.v (ldOf A (Ni + n)) A.gdata tt))
        · simp
        · exact absurd hh h1
      rw [hb]

lemma workerInit_err (A : SolverArgs) (cb : Callbacks) (w : Worker) :
    (workerInit A cb w).errcode =
      (if badW A cb w = true then SIMINF_ERR_INVALID_RATE else w.errcode) := by
  rw [workerInit]
  exact initNodesGo_err A cb w.tt w.Ni w.nodes 0 w.errcode

lemma firstErrcode_all (ws : List Worker) (e : ℤ)
    (hall : ∀ w ∈ ws, w.errcode = 0 ∨ w.errcode = e)
    (hex : ∃ w ∈ ws, w.errcode ≠ 0) :
    firstErrcode ws = some e := by
  induction ws with
  | nil => obtain ⟨w, hw, _⟩ := hex; exact absurd hw (List.not_mem_nil w)
  | cons w rest ih =>
    rw [firstErrcode]
    by_cases h : w.errcode ≠ 0
    · rcases hall w (List.mem_cons_self w rest) with h0 | h0
      · exact absurd h0 h
      · rw [if_pos h, h0]
    · rw [if_neg h]
      apply ih (fun w' hw' => hall w' (List.mem_cons_of_mem w hw'))
      obtain ⟨w', hw', hne⟩ := hex
      rcases List.mem_cons.mp hw' with rfl | hmem
      · exact absurd hne h
      · exact ⟨w', hmem, hne⟩

lemma stepAt_length (f : ℕ → Worker → Worker) (ws : List Worker) (i : ℕ) :
    (stepAt f ws i).length = ws.length := by
  rw [stepAt, List.length_set]

lemma parFor_length (f : ℕ → Worker → Worker) (ord : List ℕ) (ws : List Worker) :
    (parFor f ord ws).length = ws.length := by
  induction ord generalizing ws with
  | nil => rfl
  | cons j rest ih =>
    rw [parFor, List.foldl_cons, ← parFor, ih, stepAt_length]

lemma parFor_getD_notmem (f : ℕ → Worker → Worker) (ord : List ℕ)
    (ws : List Worker) (i : ℕ) (h : i ∉ ord) :
    (parFor f ord ws).getD i default = ws.getD i default := by
  induction ord generalizing ws with
  | nil => rfl
  | cons j rest ih =>
    rw [parFor, List.foldl_cons, ← parFor, ih _ (fun hm => h (List.mem_cons_of_mem j hm)),
      stepAt, getD_set_ne _ (fun hj => h (by rw [← hj]; exact List.mem_cons_self j rest))]

lemma parFor_getD (f : ℕ → Worker → Worker) (ord : List ℕ) (hnd : ord.Nodup)
    (ws : List Worker) (i : ℕ) (hi : i ∈ ord) (hlen : i < ws.length) :
    (parFor f ord ws).getD i default = f i (ws.getD i default) := by
  induction ord generalizing ws with
  | nil => exact absurd hi (List.not_mem_nil i)
  | cons j rest ih =>
    rw [parFor, List.foldl_cons, ← parFor]
    rcases List.mem_cons.mp hi with rfl | hmem
    · rw [parFor_getD_notmem f rest _ i (List.nodup_cons.mp hnd).1, stepAt,
        getD_set_self _ _ hlen]
    · have hij : j ≠ i := fun h =>
        (List.nodup_cons.mp hnd).1 (h ▸ hmem)
      rw [ih (List.nodup_cons.mp hnd).2 _ hmem (by rw [stepAt_length]; exact hlen),
        stepAt, getD_set_ne _ hij]

lemma setup_worker_getD (A : SolverArgs) (ext : Ext) (i : ℕ) (hi : i < A.Nthread) :
    ((setupState A ext).workers).getD i default = mkWorker A ext i := by
  rw [setupState]
  rw [List.getD_eq_getElem _ _ (by simpa using hi)]
  simp

/-- C5 (amended: the error is set at each site, and is the solver's return
value unless a later error overwrites the single errcode field before the
end-of-day check): every value returned by a propensity function is checked
to be finite and non-negative at the three sites - solver initialization,
the dependency-graph refresh after a fired transition, and the full refresh
after the post-timestep callback; an invalid value sets the worker's
errcode to SIMINF_ERR_INVALID_RATE at that site, and an invalid value
during initialization makes the solver return SIMINF_ERR_INVALID_RATE. -/
theorem invalid_rate_checked_at_all_sites :
    (∀ (G : CSCp) (cb : Callbacks) (u : List ℤ) (v ld gd : List ℚ) (t : ℚ)
      (tr : ℕ) (t_rate : List ℚ) (err : ℤ),
      (∃ i ∈ colRows G tr, invalidRate (cb.tr_fun i u v ld gd t)) →
      (SimInf_dep_refresh G cb u v ld gd t tr t_rate err).2.2 =
        SIMINF_ERR_INVALID_RATE) ∧
    (∀ (A : SolverArgs) (cb : Callbacks) (tt : ℚ) (g : ℕ) (nd : NodeW) (err : ℤ),
      ¬ (cb.pts_fun nd.v_new nd.u nd.v (ldOf A g) A.gdata g tt).2 < 0 →
      (0 < (cb.pts_fun nd.v_new nd.u nd.v (ldOf A g) A.gdata g tt).2 ∨
        nd.update_node ≠ 0) →
      (∃ j ∈ List.range A.Nt, invalidRate (cb.tr_fun j nd.u
        (cb.pts_fun nd.v_new nd.u nd.v (ldOf A g) A.gdata g tt).1
        (ldOf A g) A.gdata tt)) →
      (SimInf_post_node A cb tt g nd err).2.1 = SIMINF_ERR_INVALID_RATE) ∧
    (∀ (Nt : ℕ) (cb : Callbacks) (tt : ℚ) (ld gd : List ℚ) (nd : NodeW) (err : ℤ),
      (∃ j ∈ List.range Nt, invalidRate (cb.tr_fun j nd.u nd.v ld gd tt)) →
      (SimInf_init_node Nt cb tt ld gd nd err).2 = SIMINF_ERR_INVALID_RATE) ∧
    (∀ (A : SolverArgs) (cb : Callbacks) (ext : Ext) (fuel days : ℕ),
      (∃ i, i < A.Nthread ∧ badW A cb (mkWorker A ext i) = true) →
      ∃ st, runSolver A cb ext fuel days = some (SIMINF_ERR_INVALID_RATE, st)) := by
  refine ⟨?_, ?_, ?_, ?_⟩
  · intro G cb u v ld gd t tr t_rate err hex
    rw [SimInf_dep_refresh, refreshFold_err, if_pos hex]
  · intro A cb tt g nd err hrc hupd hex
    have hunf : (SimInf_post_node A cb tt g nd err).2.1 =
        (refreshFold (fun j => cb.tr_fun j nd.u
          (cb.pts_fun nd.v_new nd.u nd.v (ldOf A g) A.gdata g tt).1
          (ldOf A g) A.gdata tt) (List.range A.Nt) nd.t_rate err).2.2 := by
      rw [SimInf_post_node]
      simp only [if_neg hrc, if_pos hupd]
    rw [hunf, refreshFold_err, if_pos hex]
  · intro Nt cb tt ld gd nd err hex
    rw [SimInf_init_node_err, if_pos hex]
  · intro A cb ext fuel days ⟨i, hi, hbad⟩
    have hlen0 : (setupState A ext).workers.length = A.Nthread := by
      rw [setupState]
      simp
    have hlen1 : (parFor (fun _ w => workerInit A cb w) (List.range A.Nthread)
        (setupState A ext).workers).length = A.Nthread := by
      rw [parFor_length, hlen0]
    have hgetD : ∀ k, k < A.Nthread →
        (parFor (fun _ w => workerInit A cb w) (List.range A.Nthread)
          (setupState A ext).workers).getD k default =
          workerInit A cb (mkWorker A ext k) := by
      intro k hk
      rw [parFor_getD _ _ (List.nodup_range A.Nthread) _ k
        (List.mem_range.mpr hk) (by rw [hlen0]; exact hk), setup_worker_getD A ext k hk]
    have hall : ∀ w ∈ parFor (fun _ w => workerInit A cb w) (List.range A.Nthread)
        (setupState A ext).workers,
        w.errcode = 0 ∨ w.errcode = SIMINF_ERR_INVALID_RATE := by
      intro w hw
      obtain ⟨k, hk, hkw⟩ := List.mem_iff_getElem.mp hw
      have hkT : k < A.Nthread := by rw [← hlen1]; exact hk
      have : w = workerInit A cb (mkWorker A ext k) := by
        rw [← hkw, ← List.getD_eq_getElem _ default hk, hgetD k hkT]
      rw [this, workerInit_err]
      split_ifs
      · exact Or.inr rfl
      · exact Or.inl rfl
    have hex : ∃ w ∈ parFor (fun _ w => workerInit A cb w) (List.range A.Nthread)
        (setupState A ext).workers, w.errcode ≠ 0 := by
      refine ⟨(parFor (fun _ w => workerInit A cb w) (List.range A.Nthread)
        (setupState A ext).workers).getD i default, ?_, ?_⟩
      · have hilen : i < (parFor (fun _ w => workerInit A cb w) (List.range A.Nthread)
            (setupState A ext).workers).length := by rw [hlen1]; exact hi
        rw [List.getD_eq_getElem _ default hilen]
        exact List.getElem_mem hilen
      · rw [hgetD i hi, workerInit_err, if_pos hbad]
        rw [SIMINF_ERR_INVALID_RATE]
        omega
    have hfe : firstErrcode (parFor (fun _ w => workerInit A cb w)
        (List.range A.Nthread) (setupState A ext).workers) =
        some SIMINF_ERR_INVALID_RATE :=
      firstErrcode_all _ _ hall hex
    refine ⟨{ setupState A ext with
      workers := parFor (fun _ w => workerInit A cb w)
        (List.range A.Nthread) (setupState A ext).workers }, ?_⟩
    rw [runSolver, runSolverSched]
    simp only [hfe]

/-- Solver arguments of the mid-run error-overwrite scenario: one node with
one compartment, two transitions, state-change column 0 removing one
individual, dependency column 1 pointing at transition 1. -/
def exArgs : SolverArgs :=
  { Nn := 1, Nc := 1, Nt := 2, Nd := 1, Nld := 1,
    G := ⟨[1], [0, 0, 1]⟩, S := ⟨[0], [0, 1, 1], [-1]⟩,
    tspan := [0, 1/2], tlen := 2, u0 := [0], v0 := [0],
    ldata := [0], gdata := [], Nthread := 1, seed := 0 }

/-- Callbacks of the scenario: transition 0 has constant rate 10,
transition 1 has rate 5 at time 0 and the finite negative - hence invalid -
rate -5 at any later time; the post-timestep callback does nothing. -/
def exCb : Callbacks :=
  { tr_fun := fun j _u _v _ld _gd t =>
      if j = 0 then ⟨true, 10⟩ else if 0 < t then ⟨true, -5⟩ else ⟨true, 5⟩,
    pts_fun := fun vn _u _v _ld _gd _g _t => (vn, 0) }

/-- External parameters of the scenario: `-log` modelled as the constant 2,
a uniform stream whose second draw selects transition 1 and whose other
draws select transition 0, and empty event queues. -/
def exExt : Ext :=
  { neglog := fun _ => 2,
    ustream := fun _ k => if k = 1 then 11/15 else 1/10,
    mtDraw := fun _ _ => 0,
    e1 := fun _ v => v,
    e2 := fun vs => vs }

/-- Inner-loop context of the scenario's single node on day 0. -/
def exCtx : NodeCtx := mkCtx exArgs exCb exExt 0 1 0 (mkNode exArgs 0)

/-- State of the scenario's node right after rate initialization. -/
def exS0 : StepState := ⟨[0], [10, 5], 15, 0, 0, 0⟩

unseal Rat.mul Rat.add Rat.inv Rat.sub in
/-- C5 counterexample: in the scenario above, transition 1 fires first and
its dependency-graph refresh receives the finite negative rate -5, so the
errcode holds SIMINF_ERR_INVALID_RATE after the first step; the second step
fires transition 0, drives the only compartment negative, and overwrites
the errcode with SIMINF_ERR_NEGATIVE_STATE; the solver then returns
SIMINF_ERR_NEGATIVE_STATE, not SIMINF_ERR_INVALID_RATE, although a
propensity returned an invalid value during the run. -/
theorem invalid_rate_latch_counterexample :
    invalidRate (exCb.tr_fun 1 [0] [0] [0] [] (2/15)) = true ∧
    (exCb.tr_fun 1 [0] [0] [0] [] (2/15)).finite = true ∧
    (ssaStep exCtx exS0).1.errcode = SIMINF_ERR_INVALID_RATE ∧
    (ssaStep exCtx (ssaStep exCtx exS0).1).1.errcode = SIMINF_ERR_NEGATIVE_STATE ∧
    (runSolver exArgs exCb exExt 10 3).map (fun p => p.1) =
      some SIMINF_ERR_NEGATIVE_STATE ∧
    SIMINF_ERR_NEGATIVE_STATE ≠ SIMINF_ERR_INVALID_RATE := by
  decide

/-- Callbacks returning an invalid rate during a triggered post-timestep
refresh. -/
def cbW4 : Callbacks :=
  ⟨fun _j _u _v _ld _gd _t => ⟨true, -2⟩,
   fun vn _u _v _ld _gd _g _t => (vn, 1)⟩

/-- Callbacks whose second propensity returns a non-finite value already at
initialization. -/
def exCbBad : Callbacks :=
  { tr_fun := fun j _u _v _ld _gd _t =>
      if j = 0 then ⟨true, 1⟩ else ⟨false, 0⟩,
    pts_fun := fun vn _u _v _ld _gd _g _t => (vn, 0) }

unseal Rat.mul Rat.add Rat.inv Rat.sub in
/-- Witness for the invalid-rate theorem: each site instantiated at a
concrete invalid value, and a run that fails at initialization. -/
theorem invalid_rate_checked_at_all_sites_witness :
    ((∃ i ∈ colRows exArgs.G 1, invalidRate (exCb.tr_fun i [0] [0] [0] [] 1)) ∧
      (SimInf_dep_refresh exArgs.G exCb [0] [0] [0] [] 1 1 [10, 5] 0).2.2 =
        SIMINF_ERR_INVALID_RATE) ∧
    ((SimInf_post_node exArgsW cbW4 0 0 ndW 0).2.1 = SIMINF_ERR_INVALID_RATE) ∧
    ((SimInf_init_node 2 exCb 1 [0] [] ndW 0).2 = SIMINF_ERR_INVALID_RATE) ∧
    ((∃ i, i < exArgs.Nthread ∧ badW exArgs exCbBad (mkWorker exArgs exExt i) = true) ∧
      ∃ st, runSolver exArgs exCbBad exExt 10 3 =
        some (SIMINF_ERR_INVALID_RATE, st)) :=
  ⟨⟨⟨1, by decide, by decide⟩,
    invalid_rate_checked_at_all_sites.1 exArgs.G exCb [0] [0] [0] [] 1 1 [10, 5] 0
      ⟨1, by decide, by decide⟩⟩,
   invalid_rate_checked_at_all_sites.2.1 exArgsW cbW4 0 0 ndW 0 (by decide)
     (by decide) ⟨0, by decide, by decide⟩,
   invalid_rate_checked_at_all_sites.2.2.1 2 exCb 1 [0] [] ndW 0
     ⟨1, by decide, by decide⟩,
   ⟨⟨0, by decide, by decide⟩,
    invalid_rate_checked_at_all_sites.2.2.2 exArgs exCbBad exExt 10 3
      ⟨0, by decide, by decide⟩⟩⟩

/-- Invariant of the dense-output cursors: both sample cursors are at least
1 and every column recorded in the write logs has index at least 1, so
column 0 is never touched by the main loop. -/
def cursorInv (w : Worker) : Prop :=
  1 ≤ w.U_it ∧ 1 ≤ w.V_it ∧
  (∀ e ∈ w.Ufrag, 1 ≤ e.1) ∧ (∀ e ∈ w.Vfrag, 1 ≤ e.1)

lemma sampleGo_spec {α : Type} (tspan : List ℚ) (tlen : ℕ) (tt : ℚ) (data : α) :
    ∀ (fuel it : ℕ) (frag : List (ℕ × α)),
      it ≤ (sampleGo tspan tlen tt data fuel it frag).1 ∧
      ∃ pre, (sampleGo tspan tlen tt data fuel it frag).2 = pre ++ frag ∧
        ∀ e ∈ pre, (it ≤ e.1 ∧ e.1 < tlen ∧ tspan.getD e.1 0 < tt) ∧ e.2 = data := by
  intro fuel
  induction fuel with
  | zero =>
    intro it frag
    exact ⟨le_refl _, [], rfl, fun e he => absurd he (List.not_mem_nil e)⟩
  | succ fuel ih =>
    intro it frag
    rw [sampleGo]
    by_cases h : it < tlen ∧ tspan.getD it 0 < tt
    · rw [if_pos h]
      obtain ⟨ih1, pre, ihpre, ihent⟩ := ih (it + 1) ((it, data) :: frag)
      refine ⟨by omega, pre ++ [(it, data)], ?_, ?_⟩
      · rw [ihpre, List.append_assoc, List.singleton_append]
      · intro e he
        rcases List.mem_append.mp he with hm | hm
        · obtain ⟨⟨ha, hb, hc⟩, hd⟩ := ihent e hm
          exact ⟨⟨by omega, hb, hc⟩, hd⟩
        · rw [List.mem_singleton.mp hm]
          exact ⟨⟨le_refl _, h.1, h.2⟩, rfl⟩
    · rw [if_neg h]
      exact ⟨le_refl _, [], rfl, fun e he => absurd he (List.not_mem_nil e)⟩

/-- The sampling loop records only columns whose index starts at the
incoming cursor and whose `tspan` entry is strictly below `tt`. -/
lemma sampleLoop_spec {α : Type} (tspan : List ℚ) (tlen : ℕ) (tt : ℚ)
    (data : α) (it : ℕ) (frag : List (ℕ × α)) :
    it ≤ (sampleLoop tspan tlen tt data it frag).1 ∧
    ∃ pre, (sampleLoop tspan tlen tt data it frag).2 = pre ++ frag ∧
      ∀ e ∈ pre, (it ≤ e.1 ∧ e.1 < tlen ∧ tspan.getD e.1 0 < tt) ∧ e.2 = data :=
  sampleGo_spec tspan tlen tt data (tlen - it) it frag

lemma workerInit_cursor (A : SolverArgs) (cb : Callbacks) (w : Worker) :
    (workerInit A cb w).U_it = w.U_it ∧ (workerInit A cb w).V_it = w.V_it ∧
    (workerInit A cb w).Ufrag = w.Ufrag ∧ (workerInit A cb w).Vfrag = w.Vfrag :=
  ⟨rfl, rfl, rfl, rfl⟩

lemma workerPhaseA_cursor (A : SolverArgs) (cb : Callbacks) (ext : Ext)
    (fuel i : ℕ) (w : Worker) :
    (workerPhaseA A cb ext fuel i w).U_it = w.U_it ∧
    (workerPhaseA A cb ext fuel i w).V_it = w.V_it ∧
    (workerPhaseA A cb ext fuel i w).Ufrag = w.Ufrag ∧
    (workerPhaseA A cb ext fuel i w).Vfrag = w.Vfrag :=
  ⟨rfl, rfl, rfl, rfl⟩

lemma applyEvView_cursor (w : Worker) (v : EvView) :
    (applyEvView w v).U_it = w.U_it ∧ (applyEvView w v).V_it = w.V_it ∧
    (applyEvView w v).Ufrag = w.Ufrag ∧ (applyEvView w v).Vfrag = w.Vfrag :=
  ⟨rfl, rfl, rfl, rfl⟩

lemma workerSwap_cursor (w : Worker) :
    (workerSwap w).U_it = w.U_it ∧ (workerSwap w).V_it = w.V_it ∧
    (workerSwap w).Ufrag = w.Ufrag ∧ (workerSwap w).Vfrag = w.Vfrag :=
  ⟨rfl, rfl, rfl, rfl⟩

lemma cursorInv_of_fields {w w' : Worker} (h1 : w'.U_it = w.U_it)
    (h2 : w'.V_it = w.V_it) (h3 : w'.Ufrag = w.Ufrag) (h4 : w'.Vfrag = w.Vfrag)
    (h : cursorInv w) : cursorInv w' := by
  rw [cursorInv, h1, h2, h3, h4]
  exact h

lemma workerPhaseC_cursorInv (A : SolverArgs) (cb : Callbacks) (w : Worker)
    (h : cursorInv w) : cursorInv (workerPhaseC A cb w) := by
  obtain ⟨hU, hV, hUf, hVf⟩ := h
  obtain ⟨hc1, pre1, hp1, he1⟩ := sampleLoop_spec A.tspan A.tlen w.next_day
    (((postNodesGo A cb w.tt w.Ni 0 w.nodes w.errcode).1.map (fun nd => nd.u)).flatten)
    w.U_it w.Ufrag
  obtain ⟨hc2, pre2, hp2, he2⟩ := sampleLoop_spec A.tspan A.tlen w.next_day
    (((postNodesGo A cb w.tt w.Ni 0 w.nodes w.errcode).1.map (fun nd => nd.v_new)).flatten)
    w.V_it w.Vfrag
  refine ⟨by
      show 1 ≤ (sampleLoop _ _ _ _ w.U_it w.Ufrag).1
      omega,
    by
      show 1 ≤ (sampleLoop _ _ _ _ w.V_it w.Vfrag).1
      omega,
    ?_, ?_⟩
  · show ∀ e ∈ (sampleLoop _ _ _ _ w.U_it w.Ufrag).2, 1 ≤ e.1
    rw [hp1]
    intro e he
    rcases List.mem_append.mp he with hm | hm
    · have := (he1 e hm).1.1
      omega
    · exact hUf e hm
  · show ∀ e ∈ (sampleLoop _ _ _ _ w.V_it w.Vfrag).2, 1 ≤ e.1
    rw [hp2]
    intro e he
    rcases List.mem_append.mp he with hm | hm
    · have := (he2 e hm).1.1
      omega
    · exact hVf e hm

lemma parFor_preserves {P : Worker → Prop} (f : ℕ → Worker → Worker)
    (hf : ∀ i w, P w → P (f i w)) (ord : List ℕ) (ws : List Worker)
    (hws : ∀ w ∈ ws, P w) : ∀ w ∈ parFor f ord ws, P w := by
  induction ord generalizing ws with
  | nil => exact hws
  | cons j rest ih =>
    rw [parFor, List.foldl_cons, ← parFor]
    apply ih
    rcases Nat.lt_or_ge j ws.length with hj | hj
    · intro w hw
      rcases List.mem_or_eq_of_mem_set hw with hm | rfl
      · exact hws w hm
      · exact hf j _ (hws _ (by
          rw [List.getD_eq_getElem _ default hj]
          exact List.getElem_mem hj))
    · rw [stepAt, List.set_eq_of_length_le hj]
      exact hws

/-- State carried by a day result, whether the day halted or continued. -/
def DayRes.state : DayRes → SolverState
  | .halt _ s => s
  | .cont s => s

lemma runDay_state (A : SolverArgs) (cb : Callbacks) (ext : Ext) (fuel : ℕ)
    (ordA ordC : List ℕ) (st : SolverState) (res : DayRes)
    (h : runDay A cb ext fuel ordA ordC st = some res) :
    res.state = { st with
      workers := (parFor (fun _ w => workerPhaseC A cb w) ordC
        (List.zipWith applyEvView (parFor (workerPhaseA A cb ext fuel) ordA st.workers)
          (ext.e2 ((parFor (workerPhaseA A cb ext fuel) ordA st.workers).map evView)))).map
        workerSwap } := by
  rw [runDay] at h
  split at h
  · exact absurd h (by simp)
  · split at h
    · cases h
      rfl
    · split at h
      · cases h
        rfl
      · cases h
        rfl

lemma runDay_preserves (A : SolverArgs) (cb : Callbacks) (ext : Ext) (fuel : ℕ)
    (ordA ordC : List ℕ) (st : SolverState) (res : DayRes)
    (hinv : ∀ w ∈ st.workers, cursorInv w)
    (h : runDay A cb ext fuel ordA ordC st = some res) :
    (∀ w ∈ res.state.workers, cursorInv w) ∧
    res.state.Ucol0 = st.Ucol0 ∧ res.state.Vcol0 = st.Vcol0 := by
  rw [runDay_state A cb ext fuel ordA ordC st res h]
  refine ⟨?_, rfl, rfl⟩
  have h1 : ∀ w ∈ parFor (workerPhaseA A cb ext fuel) ordA st.workers, cursorInv w :=
    parFor_preserves _ (fun i w hw => by
      obtain ⟨e1, e2, e3, e4⟩ := workerPhaseA_cursor A cb ext fuel i w
      exact cursorInv_of_fields e1 e2 e3 e4 hw) ordA st.workers hinv
  have h2 : ∀ w ∈ List.zipWith applyEvView
      (parFor (workerPhaseA A cb ext fuel) ordA st.workers)
      (ext.e2 ((parFor (workerPhaseA A cb ext fuel) ordA st.workers).map evView)),
      cursorInv w := by
    intro w hw
    obtain ⟨k, hk, hkw⟩ := List.mem_iff_getElem.mp hw
    rw [List.getElem_zipWith] at hkw
    have hlt : k < (parFor (workerPhaseA A cb ext fuel) ordA st.workers).length := by
      rw [List.length_zipWith] at hk
      omega
    have hk2 : k < (ext.e2 ((parFor (workerPhaseA A cb ext fuel) ordA
        st.workers).map evView)).length := by
      rw [List.length_zipWith] at hk
      omega
    obtain ⟨e1, e2, e3, e4⟩ := applyEvView_cursor
      ((parFor (workerPhaseA A cb ext fuel) ordA st.workers)[k])
      ((ext.e2 ((parFor (workerPhaseA A cb ext fuel) ordA st.workers).map evView))[k])
    rw [← hkw]
    exact cursorInv_of_fields e1 e2 e3 e4 (h1 _ (List.getElem_mem hlt))
  have h3 : ∀ w ∈ parFor (fun _ w => workerPhaseC A cb w) ordC
      (List.zipWith applyEvView (parFor (workerPhaseA A cb ext fuel) ordA st.workers)
        (ext.e2 ((parFor (workerPhaseA A cb ext fuel) ordA st.workers).map evView))),
      cursorInv w :=
    parFor_preserves _ (fun _ w hw => workerPhaseC_cursorInv A cb w hw) ordC _ h2
  intro w hw
  obtain ⟨w', hw', rfl⟩ := List.mem_map.mp hw
  obtain ⟨e1, e2, e3, e4⟩ := workerSwap_cursor w'
  exact cursorInv_of_fields e1 e2 e3 e4 (h3 w' hw')

lemma runLoop_preserves (A : SolverArgs) (cb : Callbacks) (ext : Ext)
    (fuel : ℕ) (schedA schedC : ℕ → List ℕ) :
    ∀ (days d : ℕ) (st : SolverState) (c : ℤ) (st' : SolverState),
      (∀ w ∈ st.workers, cursorInv w) →
      runLoop A cb ext fuel schedA schedC days d st = some (c, st') →
      (∀ w ∈ st'.workers, cursorInv w) ∧
      st'.Ucol0 = st.Ucol0 ∧ st'.Vcol0 = st.Vcol0 := by
  intro days
  induction days with
  | zero =>
    intro d st c st' _ h
    exact absurd h (by rw [runLoop]; simp)
  | succ days ih =>
    intro d st c st' hinv h
    rw [runLoop] at h
    cases hday : runDay A cb ext fuel (schedA d) (schedC d) st with
    | none => rw [hday] at h; exact absurd h (by simp)
    | some res =>
      rw [hday] at h
      obtain ⟨hres, hU, hV⟩ := runDay_preserves A cb ext fuel (schedA d) (schedC d)
        st res hinv hday
      cases res with
      | halt c2 st2 =>
        simp only [] at h
        cases h
        exact ⟨hres, hU, hV⟩
      | cont st2 =>
        simp only [] at h
        obtain ⟨h1, h2, h3⟩ := ih (d + 1) st2 c st' hres h
        exact ⟨h1, h2.trans hU, h3.trans hV⟩

lemma setup_cursorInv (A : SolverArgs) (ext : Ext) :
    ∀ w ∈ (setupState A ext).workers, cursorInv w := by
  intro w hw
  rw [setupState] at hw
  obtain ⟨i, _, rfl⟩ := List.mem_map.mp hw
  exact ⟨le_refl 1, le_refl 1,
    fun e he => absurd he (List.not_mem_nil e),
    fun e he => absurd he (List.not_mem_nil e)⟩

lemma runSolver_preserves (A : SolverArgs) (cb : Callbacks) (ext : Ext)
    (fuel days : ℕ) (c : ℤ) (st' : SolverState)
    (h : runSolver A cb ext fuel days = some (c, st')) :
    (∀ w ∈ st'.workers, cursorInv w) ∧
    st'.Ucol0 = A.u0.take (A.Nn * A.Nc) ∧
    st'.Vcol0 = A.v0.take (A.Nn * A.Nd) := by
  rw [runSolver, runSolverSched] at h
  have hinv1 : ∀ w ∈ parFor (fun _ w => workerInit A cb w)
      (List.range A.Nthread) (setupState A ext).workers, cursorInv w :=
    parFor_preserves _ (fun i w hw => by
      obtain ⟨e1, e2, e3, e4⟩ := workerInit_cursor A cb w
      exact cursorInv_of_fields e1 e2 e3 e4 hw)
      (List.range A.Nthread) _ (setup_cursorInv A ext)
  cases hfe : firstErrcode (parFor (fun _ w => workerInit A cb w)
      (List.range A.Nthread) (setupState A ext).workers) with
  | some e =>
    rw [hfe] at h
    simp only [] at h
    cases h
    exact ⟨hinv1, rfl, rfl⟩
  | none =>
    rw [hfe] at h
    simp only [] at h
    obtain ⟨h1, h2, h3⟩ := runLoop_preserves A cb ext fuel _ _ days 0 _ c st' hinv1 h
    exact ⟨h1, h2, h3⟩

/-- C6: column 0 of the dense outputs is copied from `u0` and `v0` at setup
with both sample cursors starting at 1; the per-day sampling loop writes
column `k` only under the strict inequality `tspan[k] < tt` and only at
columns from the cursor upward; and in every completed run the initial
columns still hold `u0` and `v0` while every column index in the main
loop's write logs is at least 1, so column 0 is written exactly once, from
the initial state, and never overwritten. -/
theorem dense_output_initial_column (A : SolverArgs) (ext : Ext) :
    ((setupState A ext).Ucol0 = A.u0.take (A.Nn * A.Nc) ∧
      (setupState A ext).Vcol0 = A.v0.take (A.Nn * A.Nd) ∧
      ∀ i, (mkWorker A ext i).U_it = 1 ∧ (mkWorker A ext i).V_it = 1 ∧
        (mkWorker A ext i).Ufrag = [] ∧ (mkWorker A ext i).Vfrag = []) ∧
    (∀ (tspan : List ℚ) (tlen : ℕ) (tt : ℚ) (data : List ℤ) (it : ℕ)
      (frag : List (ℕ × List ℤ)),
      ∃ pre, (sampleLoop tspan tlen tt data it frag).2 = pre ++ frag ∧
        ∀ e ∈ pre, it ≤ e.1 ∧ e.1 < tlen ∧ tspan.getD e.1 0 < tt) ∧
    (∀ (cb : Callbacks) (fuel days : ℕ) (c : ℤ) (st' : SolverState),
      runSolver A cb ext fuel days = some (c, st') →
      st'.Ucol0 = A.u0.take (A.Nn * A.Nc) ∧
      st'.Vcol0 = A.v0.take (A.Nn * A.Nd) ∧
      ∀ w ∈ st'.workers, (∀ e ∈ w.Ufrag, 1 ≤ e.1) ∧ (∀ e ∈ w.Vfrag, 1 ≤ e.1)) := by
  refine ⟨⟨rfl, rfl, fun i => ⟨rfl, rfl, rfl, rfl⟩⟩, ?_, ?_⟩
  · intro tspan tlen tt data it frag
    obtain ⟨_, pre, hp, he⟩ := sampleLoop_spec tspan tlen tt data it frag
    exact ⟨pre, hp, fun e hm => (he e hm).1⟩
  · intro cb fuel days c st' h
    obtain ⟨hinv, hU, hV⟩ := runSolver_preserves A cb ext fuel days c st' h
    exact ⟨hU, hV, fun w hw => ⟨(hinv w hw).2.2.1, (hinv w hw).2.2.2⟩⟩

/-- Result of the concrete scenario run, used as a witness input. -/
def exRun : ℤ × SolverState :=
  (runSolver exArgs exCb exExt 10 3).getD (0, ⟨[], [], []⟩)

unseal Rat.mul Rat.add Rat.inv Rat.sub in
/-- Witness for the initial-column theorem at the concrete scenario run. -/
theorem dense_output_initial_column_witness :
    runSolver exArgs exCb exExt 10 3 = some (exRun.1, exRun.2) ∧
    exRun.2.Ucol0 = exArgs.u0.take (exArgs.Nn * exArgs.Nc) ∧
    exRun.2.Vcol0 = exArgs.v0.take (exArgs.Nn * exArgs.Nd) ∧
    ∀ w ∈ exRun.2.workers, (∀ e ∈ w.Ufrag, 1 ≤ e.1) ∧ (∀ e ∈ w.Vfrag, 1 ≤ e.1) :=
  have h : runSolver exArgs exCb exExt 10 3 = some (exRun.1, exRun.2) := by decide
  ⟨h, ((dense_output_initial_column exArgs exExt).2.2 exCb 10 3 exRun.1 exRun.2 h).1,
   ((dense_output_initial_column exArgs exExt).2.2 exCb 10 3 exRun.1 exRun.2 h).2.1,
   ((dense_output_initial_column exArgs exExt).2.2 exCb 10 3 exRun.1 exRun.2 h).2.2⟩

lemma SimInf_post_node_u (A : SolverArgs) (cb : Callbacks) (tt : ℚ) (g : ℕ)
    (nd : NodeW) (err : ℤ) : (SimInf_post_node A cb tt g nd err).1.u = nd.u := by
  rw [SimInf_post_node]
  split_ifs <;> rfl

lemma SimInf_post_node_v (A : SolverArgs) (cb : Callbacks) (tt : ℚ) (g : ℕ)
    (nd : NodeW) (err : ℤ) : (SimInf_post_node A cb tt g nd err).1.v = nd.v := by
  rw [SimInf_post_node]
  split_ifs <;> rfl

lemma SimInf_post_node_vnew (A : SolverArgs) (cb : Callbacks) (tt : ℚ) (g : ℕ)
    (nd : NodeW) (err : ℤ) :
    (SimInf_post_node A cb tt g nd err).1.v_new =
      (cb.pts_fun nd.v_new nd.u nd.v (ldOf A g) A.gdata g tt).1 := by
  rw [SimInf_post_node]
  split_ifs <;> rfl

lemma SimInf_post_node_nobreak (A : SolverArgs) (cb : Callbacks) (tt : ℚ)
    (g : ℕ) (nd : NodeW) (err : ℤ)
    (h : ¬ (cb.pts_fun nd.v_new nd.u nd.v (ldOf A g) A.gdata g tt).2 < 0) :
    (SimInf_post_node A cb tt g nd err).2.2 = false := by
  rw [SimInf_post_node]
  split_ifs <;> simp_all

lemma postNodesGo_u (A : SolverArgs) (cb : Callbacks) (tt : ℚ) (Ni : ℕ) :
    ∀ (nds : List NodeW) (n : ℕ) (err : ℤ),
      (postNodesGo A cb tt Ni n nds err).1.map (fun nd => nd.u) =
        nds.map (fun nd => nd.u) := by
  intro nds
  induction nds with
  | nil => intro n err; rfl
  | cons nd rest ih =>
    intro n err
    rw [postNodesGo]
    split
    · simp [SimInf_post_node_u]
    · simp [SimInf_post_node_u, ih]

lemma postNodesGo_v (A : SolverArgs) (cb : Callbacks) (tt : ℚ) (Ni : ℕ) :
    ∀ (nds : List NodeW) (n : ℕ) (err : ℤ),
      (postNodesGo A cb tt Ni n nds err).1.map (fun nd => nd.v) =
        nds.map (fun nd => nd.v) := by
  intro nds
  induction nds with
  | nil => intro n err; rfl
  | cons nd rest ih =>
    intro n err
    rw [postNodesGo]
    split
    · simp [SimInf_post_node_v]
    · simp [SimInf_post_node_v, ih]

lemma postNodesGo_vnew (A : SolverArgs) (cb : Callbacks) (tt : ℚ) (Ni : ℕ) :
    ∀ (nds : List NodeW) (n : ℕ) (err : ℤ),
      (∀ k, k < nds.length →
        ¬ (cb.pts_fun (nds.getD k default).v_new (nds.getD k default).u
          (nds.getD k default).v (ldOf A (Ni + n + k)) A.gdata (Ni + n + k) tt).2 < 0) →
      ∀ k, k < nds.length →
        ((postNodesGo A cb tt Ni n nds err).1.getD k default).v_new =
          (cb.pts_fun (nds.getD k default).v_new (nds.getD k default).u
            (nds.getD k default).v (ldOf A (Ni + n + k)) A.gdata (Ni + n + k) tt).1 := by
  intro nds
  induction nds with
  | nil =>
    intro n err _ k hk
    exact absurd hk (by simp)
  | cons nd rest ih =>
    intro n err hall k hk
    have h0 := hall 0 (by simp)
    simp only [List.getD_cons_zero, Nat.add_zero] at h0
    rw [postNodesGo, if_neg (by
      rw [SimInf_post_node_nobreak A cb tt (Ni + n) nd err h0]
      simp)]
    cases k with
    | zero =>
      simp only [List.getD_cons_zero, Nat.add_zero]
      exact SimInf_post_node_vnew A cb tt (Ni + n) nd err
    | succ k =>
      simp only [List.getD_cons_succ]
      have hrec := ih (n + 1) (SimInf_post_node A cb tt (Ni + n) nd err).2.1
        (fun k' hk' => by
          have := hall (k' + 1) (by simpa using Nat.succ_lt_succ hk')
          simp only [List.getD_cons_succ] at this
          rw [show Ni + (n + 1) + k' = Ni + n + (k' + 1) by omega]
          exact this)
        k (by simpa using Nat.lt_of_succ_lt_succ hk)
      rw [show Ni + n + (k + 1) = Ni + (n + 1) + k by omega]
      exact hrec

/-- C10: for every dense column recorded by a worker in one day, the
continuous values written to `V` are the flattened `v_new` buffers produced
by that day's post-timestep phase (node by node the callback's output when
no callback fails), not the `v` buffers the propensities read during the
day's SSA steps, which the phase leaves untouched; the `U` values recorded
at the same point are the current compartment counts, which the
post-timestep phase does not modify; and the recording happens inside the
phase, before the v/v_new swap of the day's epilogue. -/
theorem sampled_columns_use_post_v_new (A : SolverArgs) (cb : Callbacks)
    (w : Worker) :
    (∃ pre, (workerPhaseC A cb w).Vfrag = pre ++ w.Vfrag ∧
      ∀ e ∈ pre, e.2 = (((postNodesGo A cb w.tt w.Ni 0 w.nodes w.errcode).1.map
        (fun nd => nd.v_new)).flatten)) ∧
    (∃ pre, (workerPhaseC A cb w).Ufrag = pre ++ w.Ufrag ∧
      ∀ e ∈ pre, e.2 = ((w.nodes.map (fun nd => nd.u)).flatten)) ∧
    ((workerPhaseC A cb w).nodes.map (fun nd => nd.v) =
      w.nodes.map (fun nd => nd.v)) ∧
    ((∀ k, k < w.nodes.length →
        ¬ (cb.pts_fun (w.nodes.getD k default).v_new (w.nodes.getD k default).u
          (w.nodes.getD k default).v (ldOf A (w.Ni + k)) A.gdata (w.Ni + k) w.tt).2 < 0) →
      ∀ k, k < w.nodes.length →
        ((postNodesGo A cb w.tt w.Ni 0 w.nodes w.errcode).1.getD k default).v_new =
          (cb.pts_fun (w.nodes.getD k default).v_new (w.nodes.getD k default).u
            (w.nodes.getD k default).v (ldOf A (w.Ni + k)) A.gdata (w.Ni + k) w.tt).1) := by
  refine ⟨?_, ?_, ?_, ?_⟩
  · obtain ⟨_, pre, hp, he⟩ := sampleLoop_spec A.tspan A.tlen w.next_day
      (((postNodesGo A cb w.tt w.Ni 0 w.nodes w.errcode).1.map
        (fun nd => nd.v_new)).flatten) w.V_it w.Vfrag
    exact ⟨pre, hp, fun e hm => (he e hm).2⟩
  · obtain ⟨_, pre, hp, he⟩ := sampleLoop_spec A.tspan A.tlen w.next_day
      (((postNodesGo A cb w.tt w.Ni 0 w.nodes w.errcode).1.map
        (fun nd => nd.u)).flatten) w.U_it w.Ufrag
    refine ⟨pre, hp, fun e hm => ?_⟩
    rw [(he e hm).2, postNodesGo_u]
  · show ((postNodesGo A cb w.tt w.Ni 0 w.nodes w.errcode).1.map
      (fun nd => nd.v)) = w.nodes.map (fun nd => nd.v)
    exact postNodesGo_v A cb w.tt w.Ni w.nodes 0 w.errcode
  · intro hall k hk
    have := postNodesGo_vnew A cb w.tt w.Ni w.nodes 0 w.errcode
      (fun k' hk' => by
        have := hall k' hk'
        simpa using this)
      k hk
    simpa using this

/-- Worker with one node, used by the sampled-columns witness. -/
def wW : Worker :=
  { Ni := 0, nodes := [ndW], errcode := 0, tt := 0, next_day := 1,
    U_it := 1, V_it := 1, rngCur := 0, seed := 0,
    Ufrag := [], Vfrag := [], stuck := false }

unseal Rat.mul Rat.add Rat.inv Rat.sub in
/-- Witness for the sampled-columns theorem at a concrete one-node worker
whose callback succeeds on every node. -/
theorem sampled_columns_use_post_v_new_witness :
    ((workerPhaseC exArgsW cbW2 wW).nodes.map (fun nd => nd.v) =
      wW.nodes.map (fun nd => nd.v)) ∧
    ((∀ k, k < wW.nodes.length →
        ¬ (cbW2.pts_fun (wW.nodes.getD k default).v_new (wW.nodes.getD k default).u
          (wW.nodes.getD k default).v (ldOf exArgsW (wW.Ni + k)) exArgsW.gdata
          (wW.Ni + k) wW.tt).2 < 0) ∧
      ∀ k, k < wW.nodes.length →
        ((postNodesGo exArgsW cbW2 wW.tt wW.Ni 0 wW.nodes wW.errcode).1.getD
            k default).v_new =
          (cbW2.pts_fun (wW.nodes.getD k default).v_new (wW.nodes.getD k default).u
            (wW.nodes.getD k default).v (ldOf exArgsW (wW.Ni + k)) exArgsW.gdata
            (wW.Ni + k) wW.tt).1) :=
  ⟨(sampled_columns_use_post_v_new exArgsW cbW2 wW).2.2.1,
   ⟨by decide, (sampled_columns_use_post_v_new exArgsW cbW2 wW).2.2.2 (by decide)⟩⟩

lemma stepAt_comm (f : ℕ → Worker → Worker) (i j : ℕ) (ws : List Worker) :
    stepAt f (stepAt f ws i) j = stepAt f (stepAt f ws j) i := by
  rcases eq_or_ne i j with rfl | hij
  · rfl
  · show (stepAt f ws i).set j (f j ((stepAt f ws i).getD j default)) =
      (stepAt f ws j).set i (f i ((stepAt f ws j).getD i default))
    rw [show (stepAt f ws i).getD j default = ws.getD j default from
        getD_set_ne _ hij _ _,
      show (stepAt f ws j).getD i default = ws.getD i default from
        getD_set_ne _ hij.symm _ _,
      stepAt, stepAt, List.set_comm _ _ ws hij]

lemma foldl_stepAt_perm (f : ℕ → Worker → Worker) {l₁ l₂ : List ℕ}
    (hp : l₁.Perm l₂) : ∀ ws, l₁.foldl (stepAt f) ws = l₂.foldl (stepAt f) ws := by
  induction hp with
  | nil => intro ws; rfl
  | cons x _ ih =>
    intro ws
    rw [List.foldl_cons, List.foldl_cons]
    exact ih _
  | swap x y l =>
    intro ws
    rw [List.foldl_cons, List.foldl_cons, List.foldl_cons, List.foldl_cons,
      stepAt_comm]
  | trans _ _ ih1 ih2 =>
    intro ws
    exact (ih1 ws).trans (ih2 ws)

/-- An `omp for` region touches each worker's entry once, so its result is
the same under any execution order of the workers. -/
lemma parFor_perm (f : ℕ → Worker → Worker) {o1 o2 : List ℕ}
    (hp : o1.Perm o2) (ws : List Worker) : parFor f o1 ws = parFor f o2 ws :=
  foldl_stepAt_perm f hp ws

lemma runDay_sched (A : SolverArgs) (cb : Callbacks) (ext : Ext) (fuel : ℕ)
    {ordA ordA' ordC ordC' : List ℕ} (hA : ordA.Perm ordA')
    (hC : ordC.Perm ordC') (st : SolverState) :
    runDay A cb ext fuel ordA ordC st = runDay A cb ext fuel ordA' ordC' st := by
  rw [runDay, runDay, parFor_perm (workerPhaseA A cb ext fuel) hA st.workers,
    parFor_perm (fun _ w => workerPhaseC A cb w) hC]

lemma runLoop_sched (A : SolverArgs) (cb : Callbacks) (ext : Ext) (fuel : ℕ)
    {schedA schedC schedA' schedC' : ℕ → List ℕ}
    (hA : ∀ d, (schedA d).Perm (schedA' d)) (hC : ∀ d, (schedC d).Perm (schedC' d)) :
    ∀ (days d : ℕ) (st : SolverState),
      runLoop A cb ext fuel schedA schedC days d st =
        runLoop A cb ext fuel schedA' schedC' days d st := by
  intro days
  induction days with
  | zero => intro d st; rfl
  | succ days ih =>
    intro d st
    rw [runLoop, runLoop, runDay_sched A cb ext fuel (hA d) (hC d) st]
    cases runDay A cb ext fuel (schedA' d) (schedC' d) st with
    | none => rfl
    | some res =>
      cases res with
      | halt c st' => rfl
      | cont st' => exact ih (d + 1) st'

/-- C7: the outputs of the solver depend only on the inputs, the master
seed and the thread count, not on how the parallel regions are scheduled:
the per-worker generator of worker `i` is seeded with the `i`-th draw of
the master mt19937 generator and all randomness flows through those
streams, so running every parallel region in an arbitrary order (any
permutation of the workers, separately for every day and region) produces
exactly the run of the canonical in-order schedule - in particular two runs
with the same seed and thread count produce identical discrete output. -/
theorem solver_deterministic_given_seed_and_threads (A : SolverArgs)
    (cb : Callbacks) (ext : Ext) (fuel days : ℕ) (ordInit : List ℕ)
    (schedA schedC : ℕ → List ℕ)
    (hI : ordInit.Perm (List.range A.Nthread))
    (hA : ∀ d, (schedA d).Perm (List.range A.Nthread))
    (hC : ∀ d, (schedC d).Perm (List.range A.Nthread)) :
    runSolverSched A cb ext fuel days ordInit schedA schedC =
      runSolver A cb ext fuel days ∧
    ∀ i, (mkWorker A ext i).seed = ext.mtDraw A.seed i := by
  refine ⟨?_, fun i => rfl⟩
  rw [runSolver, runSolverSched, runSolverSched,
    parFor_perm (fun _ w => workerInit A cb w) hI (setupState A ext).workers,
    runLoop_sched A cb ext fuel hA hC days 0]

/-- Arguments with two nodes and two workers for the scheduling witness. -/
def exArgs2 : SolverArgs :=
  { exArgs with
    Nn := 2, u0 := [0, 0], v0 := [0, 0], ldata := [0, 0], Nthread := 2 }

unseal Rat.mul Rat.add Rat.inv Rat.sub in
/-- Witness for the determinism theorem: a two-worker solver run scheduled
in reversed worker order equals the canonical run. -/
theorem solver_deterministic_given_seed_and_threads_witness :
    ([1, 0].Perm (List.range exArgs2.Nthread) ∧
      (∀ _d : ℕ, ([1, 0] : List ℕ).Perm (List.range exArgs2.Nthread))) ∧
    runSolverSched exArgs2 exCb exExt 10 3 [1, 0] (fun _ => [1, 0])
      (fun _ => [1, 0]) = runSolver exArgs2 exCb exExt 10 3 ∧
    ∀ i, (mkWorker exArgs2 exExt i).seed = exExt.mtDraw exArgs2.seed i :=
  have hp : ([1, 0] : List ℕ).Perm (List.range exArgs2.Nthread) := by decide
  ⟨⟨hp, fun _ => hp⟩,
   (solver_deterministic_given_seed_and_threads exArgs2 exCb exExt 10 3 [1, 0]
     (fun _ => [1, 0]) (fun _ => [1, 0]) hp (fun _ => hp) (fun _ => hp)).1,
   (solver_deterministic_given_seed_and_threads exArgs2 exCb exExt 10 3 [1, 0]
     (fun _ => [1, 0]) (fun _ => [1, 0]) hp (fun _ => hp) (fun _ => hp)).2⟩

end SimInf
